import Mathlib

/-!
Shallow embedding of the DEFLATE (zlib) decompressor of `src/deflate.c`
(assorted tools repository), together with proofs about the embedded code.

Modelling conventions:
* C byte buffers are `List Nat`; reads go through `List.getD _ _ 0` exactly
  where the C code indexes the buffer.  A well-formedness hypothesis
  `∀ b ∈ data, b < 256` stands for the `uint8_t` element type.
* 32-bit unsigned arithmetic is `Nat` with an explicit `% 2^32` at every
  operation that can wrap in C.
* The C `deflate_bit_stream_t` carries a constant pointer `byte_stream` and a
  constant `byte_stream_size`; both are constant after initialization, so they
  are passed as the parameters `data` and `size` while the mutable fields
  (`byte_stream_offset`, `bit_buffer`, `bit_buffer_size`) form the state.
* Fallible functions return `Except DeflateError _`; each constructor of
  `DeflateError` corresponds to one `libcerror_error_set` site.
-/

/-- Error kinds; one constructor per distinct `libcerror_error_set` site that
the embedded functions can reach. -/
inductive DeflateError where
  /-- "invalid number of bits value exceeds maximum" (get_value, n > 32) -/
  | numberOfBitsExceedsMaximum
  /-- "invalid byte stream value to small" (get_value refill hits end) -/
  | byteStreamTooSmall
  /-- "invalid compressed data value too small" -/
  | compressedDataTooSmall
  /-- "invalid uncompressed data value too small" -/
  | uncompressedDataTooSmall
  /-- "invalid symbol ... code size ... value out of bounds" (table construct) -/
  | codeSizeOutOfBounds
  /-- "code sizes are over-subscribed" (table construct) -/
  | overSubscribed
  /-- "invalid symbol ... code offset ... value out of bounds" (table construct) -/
  | codeOffsetOutOfBounds
  /-- "unable to construct ... table" (a huffman table construct call did not return 1) -/
  | tableConstructFailed
  /-- "invalid huffman encoded value" -/
  | invalidHuffmanEncodedValue
  /-- "invalid number of literal codes value out of bounds" -/
  | invalidNumberOfLiteralCodes
  /-- "invalid number of distance codes value out of bounds" -/
  | invalidNumberOfDistanceCodes
  /-- "invalid code size index value out of bounds" (repeat with no previous) -/
  | invalidCodeSizeIndex
  /-- "invalid code value value out of bounds" (code-length symbol > 18) -/
  | invalidCodeValue
  /-- "invalid times to repeat value out of bounds" -/
  | invalidTimesToRepeat
  /-- "end-of-block code value missing in literal codes array" -/
  | missingEndOfBlock
  /-- "unsupported compression method" -/
  | unsupportedCompressionMethod
  /-- "unsupported compression window size" -/
  | unsupportedWindowSize
  /-- "mismatch in block size" (stored block) -/
  | blockSizeMismatch
  /-- "unsupported block type" -/
  | unsupportedBlockType
  /-- "invalid compression offset value out of bounds" (back-reference) -/
  | invalidCompressionOffset
  /-- "checksum does not match" -/
  | checksumMismatch
  /-- artificial: recursion fuel exhausted (unreachable with the fuel used by
  `deflate_decompress`, see the termination notes at the loops) -/
  | outOfFuel
deriving DecidableEq

/-- Mutable part of `deflate_bit_stream_t` (deflate.h lines 51-76).  The
constant `byte_stream` pointer and `byte_stream_size` are passed separately. -/
structure BitStream where
  byte_stream_offset : Nat
  bit_buffer : Nat
  bit_buffer_size : Nat
deriving DecidableEq

/-- One refill step shared by `deflate_bit_stream_get_value` (deflate.c lines
97-101) and `deflate_bit_stream_get_huffman_encoded_value` (lines 387-391):
take the next byte, shift it left by the current bit count (32-bit truncating,
as in C), or it into the buffer, advance offset, add 8 to the bit count. -/
def deflate_bit_stream_pull (data : List Nat) (s : BitStream) : BitStream :=
  { byte_stream_offset := s.byte_stream_offset + 1,
    bit_buffer :=
      s.bit_buffer ||| ((data.getD s.byte_stream_offset 0 <<< s.bit_buffer_size) % 2 ^ 32),
    bit_buffer_size := s.bit_buffer_size + 8 }

/-- Refill loop of `deflate_bit_stream_get_value` (deflate.c lines 84-102):
while fewer than `number_of_bits` bits are buffered, pull one byte.  Returns
`none` when the byte stream is exhausted (the error return at line 95).  The
`fuel` argument only makes the recursion structural; since every step adds 8
buffered bits, any `fuel` with `8 * fuel + bit_buffer_size ≥ number_of_bits`
makes the function agree with the C loop, and the caller passes
`number_of_bits` (so `fuel = 0` is reached only with the loop condition
false). -/
def deflate_bit_stream_refill (data : List Nat) (size : Nat) (number_of_bits : Nat) :
    Nat → BitStream → Option BitStream
  | 0, s => if s.bit_buffer_size < number_of_bits then none else some s
  | fuel + 1, s =>
    if s.bit_buffer_size < number_of_bits then
      if s.byte_stream_offset ≥ size then none
      else deflate_bit_stream_refill data size number_of_bits fuel
        (deflate_bit_stream_pull data s)
    else some s

/-- `deflate_bit_stream_get_value` (deflate.c lines 36-122).  The mask
`~(0xffffffffUL << n)` used for `n < 32` equals `2^n - 1`; for `n == 32` the
whole buffer is taken and buffer and count are zeroed. -/
def deflate_bit_stream_get_value (data : List Nat) (size : Nat) (number_of_bits : Nat)
    (s : BitStream) : Except DeflateError (Nat × BitStream) :=
  if number_of_bits > 32 then .error .numberOfBitsExceedsMaximum
  else if number_of_bits = 0 then .ok (0, s)
  else
    match deflate_bit_stream_refill data size number_of_bits number_of_bits s with
    | none => .error .byteStreamTooSmall
    | some s1 =>
      if number_of_bits < 32 then
        .ok (s1.bit_buffer &&& (2 ^ number_of_bits - 1),
          { s1 with
            bit_buffer := s1.bit_buffer >>> number_of_bits,
            bit_buffer_size := s1.bit_buffer_size - number_of_bits })
      else
        .ok (s1.bit_buffer, { s1 with bit_buffer := 0, bit_buffer_size := 0 })


/-- `deflate_huffman_table_t` (deflate.h lines 80-98).  The fixed-size C
arrays `codes_array[288]` and `code_counts_array[16]` are modelled as total
functions so that every index the C code uses — including out-of-range ones —
has a definite modelled value. -/
structure HuffTable where
  maximum_number_of_bits : Nat
  codes_array : Nat → Nat
  code_counts_array : Nat → Nat
  number_of_codes : Nat

/-- Pointwise update of a modelled C array. -/
def updArr (f : Nat → Nat) (i v : Nat) : Nat → Nat :=
  fun j => if j = i then v else f j

/-- Pointwise update of a modelled C array of `int`. -/
def updArrI (f : Nat → Int) (i : Nat) (v : Int) : Nat → Int :=
  fun j => if j = i then v else f j

/-- Return value of `deflate_huffman_table_construct`: 1 (success with the
table), 0 (the table has no codes), or -1 with an error. -/
inductive ConstructResult where
  | success (table : HuffTable)
  | empty
  | error (e : DeflateError)

/-- `true` exactly for the over-subscribed error result. -/
def ConstructResult.isOverSubscribed : ConstructResult → Bool
  | .error .overSubscribed => true
  | _ => false

/-- `true` exactly for the success (return value 1) result. -/
def ConstructResult.isSuccess : ConstructResult → Bool
  | .success _ => true
  | _ => false

/-- Histogram loop of `deflate_huffman_table_construct` (deflate.c lines
219-239): count the code sizes, rejecting a code size strictly greater than
`table->number_of_codes` (= 16).  Note the check is `code_size > 16`, so a
code size of exactly 16 is accepted and `code_counts_array[16]` — one past the
end of the 16-entry C array — is incremented. -/
def deflate_huffman_histogram : List Nat → (Nat → Nat) → Option (Nat → Nat)
  | [], counts => some counts
  | code_size :: rest, counts =>
    if code_size > 16 then none
    else deflate_huffman_histogram rest (updArr counts code_size (counts code_size + 1))

/-- Over-subscription check of `deflate_huffman_table_construct` (deflate.c
lines 248-268): `left` starts at 1 and for `bit_index = 1..=15` becomes
`2*left - count[bit_index]`; the result is `true` (error) as soon as `left`
is negative.  `steps` counts the remaining iterations (15 at entry). -/
def deflate_huffman_check_left (counts : Nat → Nat) : Nat → Nat → Int → Bool
  | 0, _, _ => false
  | steps + 1, bit_index, left_value =>
    let left_value := 2 * left_value - (counts bit_index : Int)
    if left_value < 0 then true
    else deflate_huffman_check_left counts steps (bit_index + 1) left_value

/-- Offsets loop of `deflate_huffman_table_construct` (deflate.c lines
271-280): `offsets[0] = offsets[1] = 0` and for `bit_index = 1..<15`,
`offsets[bit_index+1] = offsets[bit_index] + count[bit_index]`.  `steps`
counts the remaining iterations (14 at entry, since the loop runs while
`bit_index < maximum_number_of_bits`). -/
def deflate_huffman_offsets (counts : Nat → Nat) : Nat → Nat → (Nat → Int) → (Nat → Int)
  | 0, _, offsets => offsets
  | steps + 1, bit_index, offsets =>
    deflate_huffman_offsets counts steps (bit_index + 1)
      (updArrI offsets (bit_index + 1) (offsets bit_index + (counts bit_index : Int)))

/-- Symbol placement loop of `deflate_huffman_table_construct` (deflate.c
lines 281-309): scan symbols in order; a symbol with non-zero code size `k` is
placed at `codes_array[offsets[k]]` and `offers[k]` is incremented; a
`code_offset` outside `[0, number_of_code_sizes]` is an error (`none`). -/
def deflate_huffman_place (number_of_code_sizes : Nat) :
    List Nat → Nat → (Nat → Int) → (Nat → Nat) → Option (Nat → Nat)
  | [], _, _, codes => some codes
  | code_size :: rest, symbol, offsets, codes =>
    if code_size = 0 then deflate_huffman_place number_of_code_sizes rest (symbol + 1) offsets codes
    else
      let code_offset := offsets code_size
      if code_offset < 0 ∨ code_offset > (number_of_code_sizes : Int) then none
      else
        deflate_huffman_place number_of_code_sizes rest (symbol + 1)
          (updArrI offsets code_size (code_offset + 1))
          (updArr codes code_offset.toNat symbol)

/-- `deflate_huffman_table_construct` (deflate.c lines 127-324).  The code
sizes array and its length are both represented by the list argument.  The
hard-coded `maximum_number_of_bits` is 15 and `number_of_codes` is 16; both
arrays start zeroed (`memory_set`). -/
def deflate_huffman_table_construct (code_sizes_array : List Nat) : ConstructResult :=
  let number_of_code_sizes := code_sizes_array.length
  match deflate_huffman_histogram code_sizes_array (fun _ => 0) with
  | none => .error .codeSizeOutOfBounds
  | some counts =>
    if counts 0 = number_of_code_sizes then .empty
    else if deflate_huffman_check_left counts 15 1 1 then .error .overSubscribed
    else
      let offsets := deflate_huffman_offsets counts 14 1 (fun _ => 0)
      match deflate_huffman_place number_of_code_sizes code_sizes_array 0 offsets (fun _ => 0) with
      | none => .error .codeOffsetOutOfBounds
      | some codes =>
        .success
          { maximum_number_of_bits := 15,
            codes_array := codes,
            code_counts_array := counts,
            number_of_codes := 16 }


/-- Fill loop of `deflate_bit_stream_get_huffman_encoded_value` (deflate.c
lines 381-392): pull bytes until `maximum_number_of_bits` bits are buffered,
stopping early (without error) at the end of the byte stream.  `fuel` only
makes the recursion structural; any `fuel` with
`8 * fuel + bit_buffer_size ≥ maximum_number_of_bits` agrees with the C loop
and the caller passes `maximum_number_of_bits`. -/
def deflate_bit_stream_fill (data : List Nat) (size : Nat) (maximum_number_of_bits : Nat) :
    Nat → BitStream → BitStream
  | 0, s => s
  | fuel + 1, s =>
    if s.bit_buffer_size < maximum_number_of_bits then
      if s.byte_stream_offset ≥ size then s
      else deflate_bit_stream_fill data size maximum_number_of_bits fuel
        (deflate_bit_stream_pull data s)
    else s

/-- Walk loop of `deflate_bit_stream_get_huffman_encoded_value` (deflate.c
lines 403-424): shift bits into `huffman_code` MSB-first; at each length, if
`huffman_code - count[len] < first_huffman_code` the symbol is found at
`codes_array[first_index + (huffman_code - first_huffman_code)]` together with
the number of bits consumed; otherwise advance `first_huffman_code` and
`first_index`.  The `int` locals are `Int` here; `none` means the loop ran to
`number_of_bits` without a hit (`result != 1`). -/
def deflate_huffman_walk (table : HuffTable) :
    Nat → Nat → Nat → Int → Int → Int → Option (Nat × Nat)
  | 0, _, _, _, _, _ => none
  | steps + 1, bit_buffer, bit_index, huffman_code, first_huffman_code, first_index =>
    let huffman_code := 2 * huffman_code + ((bit_buffer % 2 : Nat) : Int)
    let code_size_count : Int := (table.code_counts_array bit_index : Int)
    if huffman_code - code_size_count < first_huffman_code then
      some (table.codes_array (first_index + (huffman_code - first_huffman_code)).toNat, bit_index)
    else
      deflate_huffman_walk table steps (bit_buffer / 2) (bit_index + 1) huffman_code
        ((first_huffman_code + code_size_count) * 2) (first_index + code_size_count)

/-- `deflate_bit_stream_get_huffman_encoded_value` (deflate.c lines 329-444):
fill the bit buffer up to `maximum_number_of_bits`, walk the canonical code,
and on success consume the `bit_index` bits of the found code. -/
def deflate_bit_stream_get_huffman_encoded_value (data : List Nat) (size : Nat)
    (table : HuffTable) (s : BitStream) : Except DeflateError (Nat × BitStream) :=
  let s1 := deflate_bit_stream_fill data size table.maximum_number_of_bits
    table.maximum_number_of_bits s
  let number_of_bits :=
    if table.maximum_number_of_bits < s1.bit_buffer_size then table.maximum_number_of_bits
    else s1.bit_buffer_size
  match deflate_huffman_walk table number_of_bits s1.bit_buffer 1 0 0 0 with
  | some (value, bit_index) =>
    .ok (value,
      { s1 with
        bit_buffer := s1.bit_buffer >>> bit_index,
        bit_buffer_size := s1.bit_buffer_size - bit_index })
  | none => .error .invalidHuffmanEncodedValue

/-- `literal_codes_base` (deflate.c lines 877-879). -/
def literal_codes_base : List Nat :=
  [3, 4, 5, 6, 7, 8, 9, 10, 11, 13, 15, 17, 19, 23, 27, 31] ++
    [35, 43, 51, 59, 67, 83, 99, 115, 131, 163, 195, 227, 258]

/-- `literal_codes_number_of_extra_bits` (deflate.c lines 881-883). -/
def literal_codes_number_of_extra_bits : List Nat :=
  [0, 0, 0, 0, 0, 0, 0, 0, 1, 1, 1, 1, 2, 2, 2, 2] ++
    [3, 3, 3, 3, 4, 4, 4, 4, 5, 5, 5, 5, 0]

/-- `distance_codes_base` (deflate.c lines 885-888). -/
def distance_codes_base : List Nat :=
  [1, 2, 3, 4, 5, 7, 9, 13, 17, 25, 33, 49, 65, 97, 129, 193] ++
    [257, 385, 513, 769, 1025, 1537, 2049, 3073, 4097, 6145, 8193] ++
    [12289, 16385, 24577]

/-- `distance_codes_number_of_extra_bits` (deflate.c lines 890-892). -/
def distance_codes_number_of_extra_bits : List Nat :=
  [0, 0, 0, 0, 1, 1, 2, 2, 3, 3, 4, 4, 5, 5, 6, 6] ++
    [7, 7, 8, 8, 9, 9, 10, 10, 11, 11, 12, 12, 13, 13]

/-- Byte-by-byte back-reference copy loop of `deflate_decode_huffman`
(deflate.c lines 1104-1110): append
`uncompressed_data[data_offset - compression_offset]` at `data_offset`,
`compression_size` times.  The written prefix of the output buffer is the
list; its length is `data_offset`. -/
def deflate_copy_loop (compression_offset : Nat) :
    Nat → List Nat → List Nat
  | 0, uncompressed_data => uncompressed_data
  | compression_size + 1, uncompressed_data =>
    deflate_copy_loop compression_offset compression_size
      (uncompressed_data ++ [uncompressed_data.getD (uncompressed_data.length - compression_offset) 0])

/-- Back-reference validation and copy of `deflate_decode_huffman` (deflate.c
lines 1082-1110): `compression_offset > data_offset` is an error,
`data_offset + compression_size > uncompressed_data_size` is an error,
otherwise copy byte by byte. -/
def deflate_copy_span (uncompressed_data_size : Nat) (uncompressed_data : List Nat)
    (compression_offset compression_size : Nat) : Except DeflateError (List Nat) :=
  if compression_offset > uncompressed_data.length then .error .invalidCompressionOffset
  else if uncompressed_data.length + compression_size > uncompressed_data_size then
    .error .uncompressedDataTooSmall
  else .ok (deflate_copy_loop compression_offset compression_size uncompressed_data)

/-- Length/distance handling of `deflate_decode_huffman` (deflate.c lines
976-1110), for a literal/length code value in `257..285`: read the extra
length bits, decode the distance symbol, read the extra distance bits, and
run the validated back-reference copy.  Returns the distance code value (the
C code leaves it in `code_value`, where the do-while condition tests it), the
bit stream and the output. -/
def deflate_decode_match (data : List Nat) (size : Nat) (distances_table : HuffTable)
    (uncompressed_data_size : Nat) (code_value : Nat) (s : BitStream)
    (uncompressed_data : List Nat) :
    Except DeflateError (Nat × BitStream × List Nat) :=
  let code_value := code_value - 257
  let number_of_extra_bits := literal_codes_number_of_extra_bits.getD code_value 0
  match deflate_bit_stream_get_value data size number_of_extra_bits s with
  | .error e => .error e
  | .ok (extra_bits, s) =>
    let compression_size :=
      (literal_codes_base.getD code_value 0 + extra_bits % 2 ^ 16) % 2 ^ 16
    match deflate_bit_stream_get_huffman_encoded_value data size distances_table s with
    | .error e => .error e
    | .ok (code_value, s) =>
      let number_of_extra_bits := distance_codes_number_of_extra_bits.getD code_value 0
      match deflate_bit_stream_get_value data size number_of_extra_bits s with
      | .error e => .error e
      | .ok (extra_bits, s) =>
        let compression_offset :=
          (distance_codes_base.getD code_value 0 + extra_bits % 2 ^ 16) % 2 ^ 16
        match deflate_copy_span uncompressed_data_size uncompressed_data
            compression_offset compression_size with
        | .error e => .error e
        | .ok uncompressed_data => .ok (code_value, s, uncompressed_data)

/-- `deflate_decode_huffman` (deflate.c lines 868-1130).  The do-while loop is
the recursion; `fuel` only makes it structural (every iteration consumes at
least one bit of the finite stream, so `deflate_decompress` passes enough fuel
that `.error .outOfFuel` is unreachable).  The output buffer is represented by
its written prefix, whose length is `*uncompressed_data_offset`. -/
def deflate_decode_huffman (data : List Nat) (size : Nat)
    (literals_table distances_table : HuffTable) (uncompressed_data_size : Nat) :
    Nat → BitStream → List Nat → Except DeflateError (BitStream × List Nat)
  | 0, _, _ => .error .outOfFuel
  | fuel + 1, s, uncompressed_data =>
    match deflate_bit_stream_get_huffman_encoded_value data size literals_table s with
    | .error e => .error e
    | .ok (code_value, s) =>
      if code_value < 256 then
        if uncompressed_data.length ≥ uncompressed_data_size then
          .error .uncompressedDataTooSmall
        else
          deflate_decode_huffman data size literals_table distances_table
            uncompressed_data_size fuel s (uncompressed_data ++ [code_value % 256])
      else if 256 < code_value ∧ code_value < 286 then
        match deflate_decode_match data size distances_table uncompressed_data_size
            code_value s uncompressed_data with
        | .error e => .error e
        | .ok (code_value, s, uncompressed_data) =>
          -- the do-while condition tests the (distance) code value last read
          if code_value ≠ 256 then
            deflate_decode_huffman data size literals_table distances_table
              uncompressed_data_size fuel s uncompressed_data
          else .ok (s, uncompressed_data)
      else if code_value ≠ 256 then .error .invalidCodeValue
      else .ok (s, uncompressed_data)

/-- Sixteen unrolled `lower_word += buffer[offset++]; upper_word += lower_word`
steps appear in `deflate_calculate_adler32`; one step, in `uint32_t`
arithmetic.  Folding this step over a list is exactly the unrolled C sequence
on consecutive bytes. -/
def adler_word_step (p : Nat × Nat) (b : Nat) : Nat × Nat :=
  (((p.1 + b) % 2 ^ 32), ((p.2 + (p.1 + b) % 2 ^ 32) % 2 ^ 32))

/-- The "optimized equivalent of `word %= 0xfff1`" of
`deflate_calculate_adler32` (deflate.c lines 1243-1259 and the other three
copies): fold the high 16 bits in with weight 15 (`(v << 4) - v`), once more
if the result exceeds 65521, and subtract 65521 once if still not below it. -/
def adler_reduce (word : Nat) : Nat :=
  let value_32bit := word >>> 16
  let word := (word &&& 0xffff) + ((value_32bit <<< 4) - value_32bit)
  let word :=
    if word > 65521 then
      let value_32bit := word >>> 16
      (word &&& 0xffff) + ((value_32bit <<< 4) - value_32bit)
    else word
  if word ≥ 65521 then word - 65521 else word

/-- Main loop of `deflate_calculate_adler32` (deflate.c lines 1186-1374):
while at least 0x15b0 = 5552 bytes remain, run 347 iterations of the 16-step
unrolled sum (= 5552 single steps on consecutive bytes) and reduce both words;
then handle the remaining bytes (the 16-step unrolled loop runs while more
than 16 bytes remain, then single steps — together a plain left fold over the
remaining bytes) and reduce both words if there were any.  `fuel` only makes
the recursion structural; any `fuel ≥ buffer.length / 5552` agrees with the C
loop and the caller passes `buffer.length`. -/
def deflate_calculate_adler32_loop : Nat → Nat → Nat → List Nat → Nat
  | 0, lower_word, upper_word, buffer =>
    if buffer.length > 0 then
      let p := buffer.foldl adler_word_step (lower_word, upper_word)
      ((adler_reduce p.2) <<< 16) ||| (adler_reduce p.1)
    else (upper_word <<< 16) ||| lower_word
  | fuel + 1, lower_word, upper_word, buffer =>
    if buffer.length ≥ 5552 then
      let p := (buffer.take 5552).foldl adler_word_step (lower_word, upper_word)
      deflate_calculate_adler32_loop fuel (adler_reduce p.1) (adler_reduce p.2)
        (buffer.drop 5552)
    else if buffer.length > 0 then
      let p := buffer.foldl adler_word_step (lower_word, upper_word)
      ((adler_reduce p.2) <<< 16) ||| (adler_reduce p.1)
    else (upper_word <<< 16) ||| lower_word

/-- `deflate_calculate_adler32` (deflate.c lines 1136-1378): split the initial
value into the two 16-bit words, run the batched checksum loop, and return
`(upper_word << 16) | lower_word`. -/
def deflate_calculate_adler32 (buffer : List Nat) (initial_value : Nat) : Nat :=
  deflate_calculate_adler32_loop buffer.length (initial_value &&& 0xffff)
    ((initial_value >>> 16) &&& 0xffff) buffer


/-- `code_sizes_sequence` (deflate.c lines 457-459). -/
def code_sizes_sequence : List Nat :=
  [16, 17, 18, 0, 8, 7, 9, 6, 10, 5] ++ [11, 4, 12, 3, 13, 2, 14, 1, 15]

/-- First code-size loop of `deflate_initialize_dynamic_huffman_tables`
(deflate.c lines 541-572): read `remaining` 3-bit values and store each at the
permuted position `code_sizes_sequence[code_size_index]`. -/
def deflate_read_code_size_codes (data : List Nat) (size : Nat) :
    Nat → Nat → (Nat → Nat) → BitStream →
    Except DeflateError ((Nat → Nat) × BitStream)
  | 0, _, code_size_array, s => .ok (code_size_array, s)
  | remaining + 1, code_size_index, code_size_array, s =>
    match deflate_bit_stream_get_value data size 3 s with
    | .error e => .error e
    | .ok (code_size, s) =>
      deflate_read_code_size_codes data size remaining (code_size_index + 1)
        (updArr code_size_array (code_sizes_sequence.getD code_size_index 0) code_size) s

/-- Second code-size loop of `deflate_initialize_dynamic_huffman_tables`
(deflate.c lines 573-586): zero the remaining permuted positions up to 19. -/
def deflate_zero_code_size_codes :
    Nat → Nat → (Nat → Nat) → (Nat → Nat)
  | 0, _, code_size_array => code_size_array
  | remaining + 1, code_size_index, code_size_array =>
    deflate_zero_code_size_codes remaining (code_size_index + 1)
      (updArr code_size_array (code_sizes_sequence.getD code_size_index 0) 0)

/-- Inner repeat loop of `deflate_initialize_dynamic_huffman_tables`
(deflate.c lines 743-748): write `times_to_repeat` copies of `code_size`. -/
def deflate_repeat_code_size (code_size : Nat) :
    Nat → Nat → (Nat → Nat) → ((Nat → Nat) × Nat)
  | 0, code_size_index, code_size_array => (code_size_array, code_size_index)
  | times + 1, code_size_index, code_size_array =>
    deflate_repeat_code_size code_size times (code_size_index + 1)
      (updArr code_size_array code_size_index code_size)

/-- Code-size decoding loop of `deflate_initialize_dynamic_huffman_tables`
(deflate.c lines 609-749): decode symbols from the codes table; `0..15` is a
literal code size, `16` repeats the previous code size 3-6 times, `17` and
`18` write zero 3-10 and 11-138 times, anything else is an error.  Every
iteration advances `code_size_index` by at least 1, so
`fuel = number_of_code_sizes + 1` (what the embedding of the caller passes)
never runs out before the loop condition `code_size_index <
number_of_code_sizes` fails. -/
def deflate_read_dynamic_code_sizes (data : List Nat) (size : Nat)
    (codes_table : HuffTable) (number_of_code_sizes : Nat) :
    Nat → Nat → (Nat → Nat) → BitStream →
    Except DeflateError ((Nat → Nat) × BitStream)
  | 0, _, _, _ => .error .outOfFuel
  | fuel + 1, code_size_index, code_size_array, s =>
    if code_size_index < number_of_code_sizes then
      match deflate_bit_stream_get_huffman_encoded_value data size codes_table s with
      | .error e => .error e
      | .ok (symbol, s) =>
        if symbol < 16 then
          deflate_read_dynamic_code_sizes data size codes_table number_of_code_sizes fuel
            (code_size_index + 1) (updArr code_size_array code_size_index symbol) s
        else
          match
            (if symbol = 16 then
              if code_size_index = 0 then .error .invalidCodeSizeIndex
              else
                match deflate_bit_stream_get_value data size 2 s with
                | .error e => .error e
                | .ok (t, s) => .ok (code_size_array (code_size_index - 1), t + 3, s)
            else if symbol = 17 then
              match deflate_bit_stream_get_value data size 3 s with
              | .error e => .error e
              | .ok (t, s) => .ok (0, t + 3, s)
            else if symbol = 18 then
              match deflate_bit_stream_get_value data size 7 s with
              | .error e => .error e
              | .ok (t, s) => .ok (0, t + 11, s)
            else (.error .invalidCodeValue :
              Except DeflateError (Nat × Nat × BitStream))) with
          | .error e => .error e
          | .ok (code_size, times_to_repeat, s) =>
            if code_size_index + times_to_repeat > number_of_code_sizes then
              .error .invalidTimesToRepeat
            else
              let r := deflate_repeat_code_size code_size times_to_repeat
                code_size_index code_size_array
              deflate_read_dynamic_code_sizes data size codes_table number_of_code_sizes fuel
                r.2 r.1 s
    else .ok (code_size_array, s)

/-- `deflate_initialize_dynamic_huffman_tables` (deflate.c lines 449-792):
read the 14-bit header (HLIT, HDIST, HCLEN packed LSB-first), read the
permuted code-size codes, build the code-lengths table, decode
`HLIT+257 + HDIST+1` code sizes, require a non-zero size for symbol 256, and
build the literal and distance tables. -/
def deflate_dynamic_huffman_tables (data : List Nat) (size : Nat) (s : BitStream) :
    Except DeflateError (HuffTable × HuffTable × BitStream) :=
  match deflate_bit_stream_get_value data size 14 s with
  | .error e => .error e
  | .ok (v, s) =>
    let number_of_literal_codes := (v &&& 0x1f) + 257
    let number_of_distance_codes := ((v >>> 5) &&& 0x1f) + 1
    let number_of_code_sizes0 := (v >>> 10) + 4
    if number_of_literal_codes > 286 then .error .invalidNumberOfLiteralCodes
    else if number_of_distance_codes > 30 then .error .invalidNumberOfDistanceCodes
    else
      match deflate_read_code_size_codes data size number_of_code_sizes0 0 (fun _ => 0) s with
      | .error e => .error e
      | .ok (code_size_array, s) =>
        let code_size_array :=
          deflate_zero_code_size_codes (19 - number_of_code_sizes0) number_of_code_sizes0
            code_size_array
        match deflate_huffman_table_construct
            ((List.range 19).map code_size_array) with
        | .success codes_table =>
          let number_of_code_sizes := number_of_literal_codes + number_of_distance_codes
          match deflate_read_dynamic_code_sizes data size codes_table number_of_code_sizes
              (number_of_code_sizes + 1) 0 code_size_array s with
          | .error e => .error e
          | .ok (code_size_array, s) =>
            if code_size_array 256 = 0 then .error .missingEndOfBlock
            else
              match deflate_huffman_table_construct
                  ((List.range number_of_literal_codes).map code_size_array) with
              | .success literals_table =>
                match deflate_huffman_table_construct
                    ((List.range number_of_distance_codes).map
                      (fun i => code_size_array (number_of_literal_codes + i))) with
                | .success distances_table => .ok (literals_table, distances_table, s)
                | _ => .error .tableConstructFailed
              | _ => .error .tableConstructFailed
        | _ => .error .tableConstructFailed

/-- The 318-entry fixed code-size array of
`deflate_initialize_fixed_huffman_tables` (deflate.c lines 807-831). -/
def fixed_code_size_array : List Nat :=
  (List.range 318).map (fun symbol =>
    if symbol < 144 then 8
    else if symbol < 256 then 9
    else if symbol < 280 then 7
    else if symbol < 288 then 8
    else 5)

/-- `deflate_initialize_fixed_huffman_tables` (deflate.c lines 797-863): the
literals table from the first 288 fixed code sizes, the distances table from
the last 30. -/
def deflate_fixed_huffman_tables : Except DeflateError (HuffTable × HuffTable) :=
  match deflate_huffman_table_construct (fixed_code_size_array.take 288) with
  | .success literals_table =>
    match deflate_huffman_table_construct (fixed_code_size_array.drop 288) with
    | .success distances_table => .ok (literals_table, distances_table)
    | _ => .error .tableConstructFailed
  | _ => .error .tableConstructFailed

/-- `byte_stream_copy_to_uint32_big_endian` applied to four bytes. -/
def byte_stream_to_uint32_big_endian (b0 b1 b2 b3 : Nat) : Nat :=
  ((((b0 <<< 8) ||| b1) <<< 8 ||| b2) <<< 8) ||| b3

/-- Stored (uncompressed) block case of `deflate_decompress` (deflate.c lines
1807-1936).  Skip to the byte boundary, read LEN and NLEN as one 32-bit
LSB-first value, compare `block_size` against
`block_size_copy = (block_size >> 16) ^ 0xffff` — where `block_size` has
already been masked to its low 16 bits at line 1853, so at line 1873 the
expression `block_size >> 16` is 0 and `block_size_copy` is always `0xffff` —
then copy `block_size` input bytes to the output and flush the bit buffer. -/
def deflate_decode_stored (data : List Nat) (size : Nat) (uncompressed_data_size : Nat)
    (s : BitStream) (uncompressed_data : List Nat) :
    Except DeflateError (BitStream × List Nat) :=
  let skip_bits := s.bit_buffer_size &&& 0x07
  match (if skip_bits > 0 then deflate_bit_stream_get_value data size skip_bits s
         else .ok (0, s)) with
  | .error e => .error e
  | .ok (_, s) =>
    match deflate_bit_stream_get_value data size 32 s with
    | .error e => .error e
    | .ok (block_size0, s) =>
      let block_size := block_size0 &&& 0xffff
      let block_size_copy := (block_size >>> 16) ^^^ 0xffff
      if block_size ≠ block_size_copy then .error .blockSizeMismatch
      else if block_size = 0 then .ok (s, uncompressed_data)
      else if block_size > size - s.byte_stream_offset then .error .compressedDataTooSmall
      else if block_size > uncompressed_data_size - uncompressed_data.length then
        .error .uncompressedDataTooSmall
      else
        .ok ({ s with
                byte_stream_offset := s.byte_stream_offset + block_size,
                bit_buffer := 0,
                bit_buffer_size := 0 },
          uncompressed_data ++
            (List.range block_size).map (fun i => data.getD (s.byte_stream_offset + i) 0))

/-- zlib header parsing of `deflate_decompress` (deflate.c lines 1495-1719):
size checks, compression method and window checks, and the preset dictionary
branch, which reads a big-endian identifier from bytes 2-5 and then advances
`compressed_data_offset` by 4 while also subtracting 4 from
`compressed_data_size`; afterwards the code advances the offset by 2 for the
header bytes and also subtracts 2 from the size.  Returns the initial
`byte_stream_offset`, the `byte_stream_size` handed to the bit stream, and
the recorded preset dictionary identifier. -/
def deflate_read_zlib_header (data : List Nat) :
    Except DeflateError (Nat × Nat × Nat) :=
  if data.length < 2 then .error .compressedDataTooSmall
  else
    let compression_method := data.getD 0 0 &&& 0x0f
    let compression_information := data.getD 0 0 >>> 4
    match (if data.getD 1 0 &&& 0x20 ≠ 0 then
            if data.length < 6 then
              (.error .compressedDataTooSmall : Except DeflateError (Nat × Nat × Nat))
            else
              .ok (4, data.length - 4,
                byte_stream_to_uint32_big_endian (data.getD 2 0) (data.getD 3 0)
                  (data.getD 4 0) (data.getD 5 0))
          else .ok (0, data.length, 0)) with
    | .error e => .error e
    | .ok (compressed_data_offset, compressed_data_size, preset_dictionary_identifier) =>
      let compressed_data_offset := compressed_data_offset + 2
      let compressed_data_size := compressed_data_size - 2
      if compression_method ≠ 8 then .error .unsupportedCompressionMethod
      else
        let compression_window_size := 2 ^ (compression_information + 8)
        if compression_window_size > 32768 then .error .unsupportedWindowSize
        else if compressed_data_offset ≥ compressed_data_size then
          .error .compressedDataTooSmall
        else .ok (compressed_data_offset, compressed_data_size, preset_dictionary_identifier)

/-- Block loop of `deflate_decompress` (deflate.c lines 1743-2015): while the
byte stream is not exhausted, read the 3 header bits and dispatch on the block
type; stop after a block with the last-block flag.  `fuel` only makes the
recursion structural: every iteration consumes at least the 3 header bits of
the finite byte stream, so the fuel passed by `deflate_decompress`
(`8 * data.length + 64`) never runs out. -/
def deflate_block_loop (data : List Nat) (size : Nat)
    (fixed_literals_table fixed_distances_table : HuffTable)
    (uncompressed_data_size : Nat) :
    Nat → BitStream → List Nat → Except DeflateError (BitStream × List Nat)
  | 0, _, _ => .error .outOfFuel
  | fuel + 1, s, uncompressed_data =>
    if s.byte_stream_offset < size then
      match deflate_bit_stream_get_value data size 3 s with
      | .error e => .error e
      | .ok (value_32bit, s) =>
        let last_block_flag := value_32bit &&& 0x01
        let block_type := value_32bit >>> 1
        match (match block_type with
          | 0 => deflate_decode_stored data size uncompressed_data_size s uncompressed_data
          | 1 => deflate_decode_huffman data size fixed_literals_table fixed_distances_table
              uncompressed_data_size fuel s uncompressed_data
          | 2 =>
            match deflate_dynamic_huffman_tables data size s with
            | .error e => .error e
            | .ok (dynamic_literals_table, dynamic_distances_table, s) =>
              deflate_decode_huffman data size dynamic_literals_table
                dynamic_distances_table uncompressed_data_size fuel s uncompressed_data
          | _ => .error .unsupportedBlockType) with
        | .error e => .error e
        | .ok (s, uncompressed_data) =>
          if last_block_flag ≠ 0 then .ok (s, uncompressed_data)
          else deflate_block_loop data size fixed_literals_table fixed_distances_table
            uncompressed_data_size fuel s uncompressed_data
    else .ok (s, uncompressed_data)

/-- Rewind loop before the checksum read (deflate.c lines 2018-2022): while at
least 8 bits are buffered, step the byte offset back one byte. -/
def deflate_rewind : Nat → BitStream → BitStream
  | 0, s => s
  | fuel + 1, s =>
    if s.bit_buffer_size ≥ 8 then
      deflate_rewind fuel
        { s with
          byte_stream_offset := s.byte_stream_offset - 1,
          bit_buffer_size := s.bit_buffer_size - 8 }
    else s

/-- Adler-32 trailer verification of `deflate_decompress` (deflate.c lines
2016-2068): only when at least 4 bytes of the (already reduced) byte stream
remain after the last block does the code rewind fully buffered bytes, read
the stored big-endian checksum and compare it against the Adler-32 of the
produced output; otherwise verification is skipped. -/
def deflate_check_trailer (data : List Nat) (size : Nat) (s : BitStream)
    (uncompressed_data : List Nat) : Except DeflateError (List Nat) :=
  if size - s.byte_stream_offset ≥ 4 then
    let s := deflate_rewind s.bit_buffer_size s
    let stored_checksum := byte_stream_to_uint32_big_endian
      (data.getD s.byte_stream_offset 0) (data.getD (s.byte_stream_offset + 1) 0)
      (data.getD (s.byte_stream_offset + 2) 0) (data.getD (s.byte_stream_offset + 3) 0)
    let calculated_checksum := deflate_calculate_adler32 uncompressed_data 1
    if stored_checksum ≠ calculated_checksum then .error .checksumMismatch
    else .ok uncompressed_data
  else .ok uncompressed_data

/-- `deflate_decompress` (deflate.c lines 1465-2072).  `uncompressed_data_size`
is the capacity `*uncompressed_data_size` supplied by the caller; the returned
list is the written output prefix, whose length the C function stores back
into `*uncompressed_data_size`. -/
def deflate_decompress (data : List Nat) (uncompressed_data_size : Nat) :
    Except DeflateError (List Nat) :=
  match deflate_read_zlib_header data with
  | .error e => .error e
  | .ok (compressed_data_offset, compressed_data_size, _) =>
    match deflate_fixed_huffman_tables with
    | .error e => .error e
    | .ok (fixed_literals_table, fixed_distances_table) =>
      match deflate_block_loop data compressed_data_size fixed_literals_table
          fixed_distances_table uncompressed_data_size (8 * data.length + 64)
          ⟨compressed_data_offset, 0, 0⟩ [] with
      | .error e => .error e
      | .ok (s, uncompressed_data) =>
        deflate_check_trailer data compressed_data_size s uncompressed_data

/-- Bit `i` of the stream as seen from state `s`: the low `bit_buffer_size`
bits of the register come first, then the bytes from `byte_stream_offset` on,
LSB-first within each byte.  This is the specification-side reading order of
section 4.1 of the specification. -/
def streamBit (data : List Nat) (s : BitStream) (i : Nat) : Bool :=
  if i < s.bit_buffer_size then s.bit_buffer.testBit i
  else
    (data.getD (s.byte_stream_offset + (i - s.bit_buffer_size) / 8) 0).testBit
      ((i - s.bit_buffer_size) % 8)

/-- Modelled from the spec: one step of the reference Adler-32 of section
4.4.7 — `lo = (lo + b) mod 65521; hi = (hi + lo) mod 65521`. -/
def adler32_spec_step (p : Nat × Nat) (b : Nat) : Nat × Nat :=
  (((p.1 + b) % 65521), ((p.2 + (p.1 + b) % 65521) % 65521))

/-- Modelled from the spec: the reference Adler-32 `A(data)` of section 4.4.7,
seeded `lo = 1, hi = 0`, checksum `(hi << 16) | lo`.  This is the
refinement counterpart that claim C10 compares `deflate_calculate_adler32`
against. -/
def adler32_reference (data : List Nat) : Nat :=
  let p := data.foldl adler32_spec_step (1, 0)
  p.2 * 65536 + p.1

/-- Triangular numbers, used to bound the deferred-modulo Adler-32 sums. -/
def adlerTri : Nat → Nat
  | 0 => 0
  | n + 1 => adlerTri n + (n + 1)

/-- The `left` iteration of claim C7 and specification section 4.2, written
over the histogram `count[len] = (number of entries equal to len)` of the
code-size vector: `left 0 = 1`, `left (k+1) = 2 * left k - count[k+1]`. -/
def spec_left_value (code_sizes : List Nat) : Nat → Int
  | 0 => 1
  | k + 1 => 2 * spec_left_value code_sizes k - (code_sizes.count (k + 1) : Int)

/-- `sumCounts cs k` is the number of entries of `cs` in `1..=k`
(equivalently the sum of the histogram over lengths `1..=k`); the canonical
per-length starting offsets of section 4.2 step 3. -/
def sumCounts (code_sizes : List Nat) : Nat → Nat
  | 0 => 0
  | k + 1 => sumCounts code_sizes k + code_sizes.count (k + 1)

/-! ### Bit stream reader: `deflate_bit_stream_get_value` -/

/-- Elements read through `List.getD _ _ 0` from a byte buffer are bytes. -/
theorem getD_lt_256 (data : List Nat) (hb : ∀ b ∈ data, b < 256) (i : Nat) :
    data.getD i 0 < 256 := by
  rcases Nat.lt_or_ge i data.length with h | h
  · rw [List.getD_eq_getElem?_getD, List.getElem?_eq_getElem h]
    exact hb _ (List.getElem_mem h)
  · rw [List.getD_eq_getElem?_getD, List.getElem?_eq_none h]
    simp

theorem lor_lt_two_pow {x y n : Nat} (hx : x < 2 ^ n) (hy : y < 2 ^ n) :
    x ||| y < 2 ^ n := by
  refine Nat.lt_pow_two_of_testBit _ (fun i hi => ?_)
  rw [Nat.testBit_lor, Nat.testBit_lt_two_pow (Nat.lt_of_lt_of_le hx (Nat.pow_le_pow_right (by omega) hi)),
    Nat.testBit_lt_two_pow (Nat.lt_of_lt_of_le hy (Nat.pow_le_pow_right (by omega) hi))]
  rfl

/-- A refill step preserves the stream bits below 32 and the register
invariant, adds 8 to the bit count and 1 to the offset. -/
theorem pull_spec (data : List Nat) (s : BitStream)
    (hb : ∀ b ∈ data, b < 256)
    (hinv : s.bit_buffer < 2 ^ min s.bit_buffer_size 32) :
    (deflate_bit_stream_pull data s).bit_buffer <
        2 ^ min (deflate_bit_stream_pull data s).bit_buffer_size 32
    ∧ (∀ j, j < 32 → streamBit data (deflate_bit_stream_pull data s) j = streamBit data s j)
    ∧ (deflate_bit_stream_pull data s).bit_buffer_size = s.bit_buffer_size + 8
    ∧ (deflate_bit_stream_pull data s).byte_stream_offset = s.byte_stream_offset + 1 := by
  have hbyte : data.getD s.byte_stream_offset 0 < 256 := getD_lt_256 data hb _
  set c := s.bit_buffer_size with hc
  set b := data.getD s.byte_stream_offset 0 with hbdef
  have hshift : ∀ j, (b <<< c).testBit j = (decide (c ≤ j) && b.testBit (j - c)) := by
    intro j; exact Nat.testBit_shiftLeft b
  refine ⟨?_, ?_, rfl, rfl⟩
  · -- register invariant
    have h32 : (b <<< c) % 2 ^ 32 < 2 ^ min (c + 8) 32 := by
      rcases Nat.le_total (c + 8) 32 with h | h
      · have : b <<< c < 2 ^ (c + 8) := by
          rw [Nat.shiftLeft_eq]
          calc b * 2 ^ c < 256 * 2 ^ c :=
                (Nat.mul_lt_mul_right (Nat.two_pow_pos c)).mpr hbyte
            _ = 2 ^ (c + 8) := by rw [Nat.pow_add]; ring
        rw [Nat.min_eq_left h]
        exact Nat.lt_of_le_of_lt (Nat.mod_le _ _) this
      · rw [Nat.min_eq_right h]
        exact Nat.mod_lt _ (by positivity)
    have hbuf' : s.bit_buffer < 2 ^ min (c + 8) 32 := by
      refine Nat.lt_of_lt_of_le hinv (Nat.pow_le_pow_right (by omega) ?_)
      omega
    exact lor_lt_two_pow hbuf' h32
  · -- stream bits below 32 preserved
    intro j hj
    show streamBit data ⟨s.byte_stream_offset + 1,
      s.bit_buffer ||| (b <<< c) % 2 ^ 32, c + 8⟩ j = streamBit data s j
    have hmod : ((b <<< c) % 2 ^ 32).testBit j = (b <<< c).testBit j := by
      rw [Nat.testBit_mod_two_pow]
      simp [hj]
    rcases Nat.lt_or_ge j c with h1 | h1
    · -- j below the old count: both read the register
      simp only [streamBit]
      rw [if_pos (by simpa using Nat.lt_of_lt_of_le h1 (by omega)), if_pos h1]
      rw [Nat.testBit_lor, hmod, hshift]
      simp [Nat.not_le.mpr h1]
    · rcases Nat.lt_or_ge j (c + 8) with h2 | h2
      · -- j inside the pulled byte
        simp only [streamBit]
        rw [if_pos (by simpa using h2), if_neg (by omega)]
        rw [Nat.testBit_lor, hmod, hshift]
        have hzero : s.bit_buffer.testBit j = false := by
          refine Nat.testBit_lt_two_pow (Nat.lt_of_lt_of_le hinv ?_)
          refine Nat.pow_le_pow_right (by omega) ?_
          omega
        have hdiv : (j - c) / 8 = 0 := by omega
        have hmod8 : (j - c) % 8 = j - c := by omega
        have : decide (c ≤ j) = true := by simp [h1]
        simp only [hzero, Bool.false_or, this, hdiv, hmod8, Bool.true_and]
        rw [hbdef]
        simp
      · -- j beyond the pulled byte: both read the same later byte
        simp only [streamBit]
        rw [if_neg (by omega), if_neg (by omega)]
        have hdiv : (j - c) / 8 = (j - (c + 8)) / 8 + 1 := by omega
        have hmod8 : (j - c) % 8 = (j - (c + 8)) % 8 := by omega
        rw [hdiv, hmod8]
        congr 2
        omega




/-- Characterization of the refill loop: with enough fuel it returns `none`
exactly when fewer than `number_of_bits` bits remain in the whole stream, and
otherwise a state with at least `number_of_bits` buffered bits and the same
stream bits below 32. -/
theorem refill_spec (data : List Nat) (size number_of_bits : Nat)
    (hb : ∀ b ∈ data, b < 256) :
    ∀ fuel s, s.bit_buffer < 2 ^ min s.bit_buffer_size 32 →
    number_of_bits ≤ s.bit_buffer_size + 8 * fuel →
    (match deflate_bit_stream_refill data size number_of_bits fuel s with
     | none => s.bit_buffer_size + 8 * (size - s.byte_stream_offset) < number_of_bits
     | some s1 =>
        number_of_bits ≤ s.bit_buffer_size + 8 * (size - s.byte_stream_offset)
        ∧ number_of_bits ≤ s1.bit_buffer_size
        ∧ s1.bit_buffer < 2 ^ min s1.bit_buffer_size 32
        ∧ (∀ j, j < 32 → streamBit data s1 j = streamBit data s j)) := by
  intro fuel
  induction fuel with
  | zero =>
    intro s hinv hfuel
    simp only [deflate_bit_stream_refill]
    have : ¬ s.bit_buffer_size < number_of_bits := by omega
    rw [if_neg this]
    exact ⟨by omega, by omega, hinv, fun j _ => rfl⟩
  | succ fuel ih =>
    intro s hinv hfuel
    simp only [deflate_bit_stream_refill]
    by_cases hlt : s.bit_buffer_size < number_of_bits
    · rw [if_pos hlt]
      by_cases hend : s.byte_stream_offset ≥ size
      · rw [if_pos hend]
        have : size - s.byte_stream_offset = 0 := by omega
        simp only [this]
        omega
      · rw [if_neg hend]
        obtain ⟨hinv', hbits, hsize, hoff⟩ := pull_spec data s hb hinv
        have hfuel' : number_of_bits ≤
            (deflate_bit_stream_pull data s).bit_buffer_size + 8 * fuel := by omega
        have := ih (deflate_bit_stream_pull data s) hinv' hfuel'
        revert this
        cases deflate_bit_stream_refill data size number_of_bits fuel
          (deflate_bit_stream_pull data s) with
        | none =>
          intro h
          simp only []
          omega
        | some s1 =>
          rintro ⟨h1, h2, h3, h4⟩
          refine ⟨by omega, h2, h3, fun j hj => ?_⟩
          rw [h4 j hj, hbits j hj]
    · rw [if_neg hlt]
      exact ⟨by omega, by omega, hinv, fun j _ => rfl⟩

/-- **C8.** For every bit-stream state satisfying the register invariant
(`bit_buffer_size ≤ 32`, bits beyond the count are zero) over a byte buffer,
and every `number_of_bits = n` with `0 ≤ n ≤ 32`:
`deflate_bit_stream_get_value` fails (with the byte-stream-too-small error)
exactly when the byte slice is exhausted before `n` bits are available, and
otherwise returns the next `n` bits of the stream interpreted LSB-first — the
first bit read becomes bit 0 of the result (`v < 2^n` and bit `j` of `v` is
stream bit `j` for every `j < n`); `n = 0` returns 0 without changing the
state, and `n = 32` takes the whole refill register (all 32 bits are returned,
no mask) and zeroes the register and the count. -/
theorem claim_C8_get_value_spec (data : List Nat) (size number_of_bits : Nat) (s : BitStream)
    (hb : ∀ b ∈ data, b < 256)
    (hcount : s.bit_buffer_size ≤ 32)
    (hbuf : s.bit_buffer < 2 ^ s.bit_buffer_size)
    (hn : number_of_bits ≤ 32) :
    (s.bit_buffer_size + 8 * (size - s.byte_stream_offset) < number_of_bits →
      deflate_bit_stream_get_value data size number_of_bits s = .error .byteStreamTooSmall)
    ∧ (number_of_bits ≤ s.bit_buffer_size + 8 * (size - s.byte_stream_offset) →
      ∃ v s1, deflate_bit_stream_get_value data size number_of_bits s = .ok (v, s1)
        ∧ v < 2 ^ number_of_bits
        ∧ (∀ j, j < number_of_bits → v.testBit j = streamBit data s j)
        ∧ (number_of_bits = 0 → v = 0 ∧ s1 = s)
        ∧ (number_of_bits = 32 → s1.bit_buffer = 0 ∧ s1.bit_buffer_size = 0)) := by
  have hinv : s.bit_buffer < 2 ^ min s.bit_buffer_size 32 := by
    rwa [Nat.min_eq_left hcount]
  by_cases h0 : number_of_bits = 0
  · subst h0
    constructor
    · intro h; omega
    · intro _
      refine ⟨0, s, ?_, by omega, by omega, fun _ => ⟨rfl, rfl⟩, by omega⟩
      simp [deflate_bit_stream_get_value]
  · have hfuel : number_of_bits ≤ s.bit_buffer_size + 8 * number_of_bits := by omega
    have hspec := refill_spec data size number_of_bits hb number_of_bits s hinv hfuel
    constructor
    · intro havail
      simp only [deflate_bit_stream_get_value, if_neg (by omega : ¬ number_of_bits > 32),
        if_neg h0]
      revert hspec
      cases deflate_bit_stream_refill data size number_of_bits number_of_bits s with
      | none => intro _; rfl
      | some s1 => intro h; exact absurd h.1 (by omega)
    · intro havail
      simp only [deflate_bit_stream_get_value, if_neg (by omega : ¬ number_of_bits > 32),
        if_neg h0]
      rcases hrefill : deflate_bit_stream_refill data size number_of_bits number_of_bits s
        with _ | s1
      · rw [hrefill] at hspec
        exact absurd havail (by simp only [] at hspec; omega)
      · rw [hrefill] at hspec
        obtain ⟨_, hge, hinv1, hbits⟩ := hspec
        simp only []
        by_cases h32 : number_of_bits < 32
        · rw [if_pos h32]
          refine ⟨s1.bit_buffer &&& (2 ^ number_of_bits - 1), _, rfl, ?_, ?_, by omega, by omega⟩
          · rw [Nat.and_pow_two_sub_one_eq_mod]
            exact Nat.mod_lt _ (by positivity)
          · intro j hj
            rw [Nat.and_pow_two_sub_one_eq_mod, Nat.testBit_mod_two_pow]
            have hdec : decide (j < number_of_bits) = true := by simp [hj]
            rw [hdec, Bool.true_and, ← hbits j (by omega)]
            simp only [streamBit, if_pos (by omega : j < s1.bit_buffer_size)]
        · have h32' : number_of_bits = 32 := by omega
          rw [if_neg h32]
          refine ⟨s1.bit_buffer, _, rfl, ?_, ?_, by omega, fun _ => ⟨rfl, rfl⟩⟩
          · subst h32'
            exact Nat.lt_of_lt_of_le hinv1
              (Nat.pow_le_pow_right (by omega) (Nat.min_le_right _ _))
          · intro j hj
            rw [← hbits j (by omega)]
            simp only [streamBit, if_pos (by omega : j < s1.bit_buffer_size)]

/-- Witness for C8 at a concrete input: reading 11 bits of `[0x5a, 0xc3]`
from a fresh state returns `0x35a` (the low 11 bits of `0xc35a` LSB-first)
and the error case at 27 bits. -/
theorem claim_C8_get_value_spec_witness :
    (deflate_bit_stream_get_value [0x5a, 0xc3] 2 27 ⟨0, 0, 0⟩ = .error .byteStreamTooSmall)
    ∧ (∃ v s1, deflate_bit_stream_get_value [0x5a, 0xc3] 2 11 ⟨0, 0, 0⟩ = .ok (v, s1)
        ∧ v < 2 ^ 11
        ∧ (∀ j, j < 11 → v.testBit j = streamBit [0x5a, 0xc3] ⟨0, 0, 0⟩ j)
        ∧ (11 = 0 → v = 0 ∧ s1 = ⟨0, 0, 0⟩)
        ∧ (11 = 32 → s1.bit_buffer = 0 ∧ s1.bit_buffer_size = 0)) :=
  ⟨(claim_C8_get_value_spec [0x5a, 0xc3] 2 27 ⟨0, 0, 0⟩ (by decide) (by decide) (by decide)
      (by decide)).1 (by decide),
   (claim_C8_get_value_spec [0x5a, 0xc3] 2 11 ⟨0, 0, 0⟩ (by decide) (by decide) (by decide)
      (by decide)).2 (by decide)⟩

/-! ### Back-reference copy: `deflate_decode_huffman` lines 1082-1110 -/

theorem copy_loop_length (compression_offset : Nat) :
    ∀ compression_size uncompressed_data,
      (deflate_copy_loop compression_offset compression_size uncompressed_data).length =
        uncompressed_data.length + compression_size := by
  intro compression_size
  induction compression_size with
  | zero => intro l; simp [deflate_copy_loop]
  | succ k ih =>
    intro l
    simp only [deflate_copy_loop, ih]
    simp
    omega

theorem copy_loop_front (compression_offset : Nat) :
    ∀ compression_size uncompressed_data j, j < uncompressed_data.length →
      (deflate_copy_loop compression_offset compression_size uncompressed_data).getD j 0 =
        uncompressed_data.getD j 0 := by
  intro compression_size
  induction compression_size with
  | zero => intro l j _; simp [deflate_copy_loop]
  | succ k ih =>
    intro l j hj
    simp only [deflate_copy_loop]
    rw [ih _ j (by simp; omega)]
    rw [List.getD_eq_getElem?_getD, List.getD_eq_getElem?_getD,
      List.getElem?_append_left hj]
    simp [List.getD_eq_getElem?_getD]

theorem copy_loop_pattern (compression_offset : Nat) :
    ∀ compression_size uncompressed_data,
      compression_offset ≤ uncompressed_data.length →
      ∀ i, i < compression_size →
      (deflate_copy_loop compression_offset compression_size uncompressed_data).getD
          (uncompressed_data.length + i) 0 =
        (deflate_copy_loop compression_offset compression_size uncompressed_data).getD
          (uncompressed_data.length - compression_offset + i) 0 := by
  intro compression_size
  induction compression_size with
  | zero => intro l _ i hi; omega
  | succ k ih =>
    intro l hd i hi
    by_cases hd0 : compression_offset = 0
    · subst hd0
      simp
    rcases Nat.eq_zero_or_pos i with hi0 | hipos
    · subst hi0
      simp only [deflate_copy_loop, Nat.add_zero]
      rw [copy_loop_front _ k _ l.length (by simp),
        copy_loop_front _ k _ (l.length - compression_offset) (by simp; omega)]
      have hlen : l.length - compression_offset < l.length := by omega
      simp only [List.getD_eq_getElem?_getD]
      rw [List.getElem?_append_right (Nat.le_refl _), List.getElem?_append_left hlen]
      simp
    · obtain ⟨i', rfl⟩ : ∃ i', i = i' + 1 := ⟨i - 1, by omega⟩
      simp only [deflate_copy_loop]
      have := ih (l ++ [l.getD (l.length - compression_offset) 0]) (by simp; omega) i'
        (by omega)
      simp only [List.length_append, List.length_cons, List.length_nil] at this
      have harith1 : l.length + 1 + i' = l.length + (i' + 1) := by omega
      have harith2 : l.length + 1 - compression_offset + i' =
          l.length - compression_offset + (i' + 1) := by omega
      rw [harith1, harith2] at this
      exact this

/-- **C9.** For every decoded length/distance pair in a Huffman block, the
back-reference step of `deflate_decode_huffman`: if the distance exceeds the
cursor it fails (the "invalid compression offset" error); otherwise if
`cursor + length` exceeds the output capacity it fails (the "uncompressed data
too small" error); otherwise it appends `length` bytes one at a time with
`output[cursor + i] = output[cursor - distance + i]` for `i < length`,
advancing the cursor each step (final cursor `= cursor + length`, the prefix
unchanged), so overlapping copies with `distance < length` produce the
repeating pattern. -/
theorem claim_C9_back_reference (uncompressed_data_size : Nat) (uncompressed_data : List Nat)
    (compression_offset compression_size : Nat) :
    (compression_offset > uncompressed_data.length →
      deflate_copy_span uncompressed_data_size uncompressed_data compression_offset
        compression_size = .error .invalidCompressionOffset)
    ∧ (compression_offset ≤ uncompressed_data.length →
       uncompressed_data.length + compression_size > uncompressed_data_size →
      deflate_copy_span uncompressed_data_size uncompressed_data compression_offset
        compression_size = .error .uncompressedDataTooSmall)
    ∧ (compression_offset ≤ uncompressed_data.length →
       uncompressed_data.length + compression_size ≤ uncompressed_data_size →
      ∃ res, deflate_copy_span uncompressed_data_size uncompressed_data compression_offset
          compression_size = .ok res
        ∧ res.length = uncompressed_data.length + compression_size
        ∧ (∀ j, j < uncompressed_data.length → res.getD j 0 = uncompressed_data.getD j 0)
        ∧ (∀ i, i < compression_size →
            res.getD (uncompressed_data.length + i) 0 =
              res.getD (uncompressed_data.length - compression_offset + i) 0)) := by
  refine ⟨?_, ?_, ?_⟩
  · intro h
    simp [deflate_copy_span, h]
  · intro h1 h2
    simp [deflate_copy_span, Nat.not_lt.mpr h1, h2]
  · intro h1 h2
    refine ⟨deflate_copy_loop compression_offset compression_size uncompressed_data, ?_, ?_, ?_, ?_⟩
    · simp [deflate_copy_span, Nat.not_lt.mpr h1, Nat.not_lt.mpr h2]
    · exact copy_loop_length _ _ _
    · exact fun j hj => copy_loop_front _ _ _ j hj
    · exact fun i hi => copy_loop_pattern _ _ _ h1 i hi

/-- Witness for C9 at a concrete input: from cursor 3 with distance 2 and
length 5, the copy produces the repeating pattern `[2, 3, 2, 3, 2]`. -/
theorem claim_C9_back_reference_witness :
    ∃ res, deflate_copy_span 10 [1, 2, 3] 2 5 = .ok res
      ∧ res.length = 3 + 5
      ∧ (∀ j, j < 3 → res.getD j 0 = [1, 2, 3].getD j 0)
      ∧ (∀ i, i < 5 → res.getD (3 + i) 0 = res.getD (3 - 2 + i) 0) :=
  (claim_C9_back_reference 10 [1, 2, 3] 2 5).2.2 (by decide) (by decide)

/-! ### Adler-32: `deflate_calculate_adler32` -/

theorem adler_reduce_eq {x : Nat} (hx : x < 2 ^ 32) : adler_reduce x = x % 65521 := by
  have h16 : ∀ y : Nat, y &&& 65535 = y % 65536 := by
    intro y
    have h : (65535 : Nat) = 2 ^ 16 - 1 := by norm_num
    rw [h, Nat.and_pow_two_sub_one_eq_mod]
  have hshr : ∀ y : Nat, y >>> 16 = y / 65536 := by
    intro y; rw [Nat.shiftRight_eq_div_pow]
  have hshl : ∀ y : Nat, y <<< 4 = y * 16 := by
    intro y; rw [Nat.shiftLeft_eq]
  simp only [adler_reduce, h16, hshr, hshl]
  split <;> split <;> omega

theorem adlerTri_two_mul : ∀ n, 2 * adlerTri n = n * (n + 1) := by
  intro n
  induction n with
  | zero => rfl
  | succ k ih => simp only [adlerTri]; ring_nf; ring_nf at ih; omega

theorem adlerTri_mono {m n : Nat} (h : m ≤ n) : adlerTri m ≤ adlerTri n := by
  induction n with
  | zero =>
    have hm : m = 0 := by omega
    simp [hm]
  | succ k ih =>
    rcases Nat.lt_or_ge m (k + 1) with h' | h'
    · have h2 : adlerTri k ≤ adlerTri (k + 1) := by
        show adlerTri k ≤ adlerTri k + (k + 1)
        omega
      exact Nat.le_trans (ih (by omega)) h2
    · have hm : m = k + 1 := by omega
      subst hm
      exact Nat.le_refl _

/-- The deferred-modulo fold (`adler_word_step`, plain 32-bit adds) agrees
with the per-byte reference fold modulo 65521, and stays below `2^32`, as
long as the starting words and the byte count respect the 5552-byte bound. -/
theorem adler_raw_mod :
    ∀ (bs : List Nat) (lo hi : Nat), (∀ b ∈ bs, b < 256) →
    lo + 255 * bs.length ≤ 1481280 →
    hi + bs.length * lo + 255 * adlerTri bs.length ≤ 4294690200 →
    (bs.foldl adler_word_step (lo, hi)).1 < 2 ^ 32
    ∧ (bs.foldl adler_word_step (lo, hi)).2 < 2 ^ 32
    ∧ (bs.foldl adler_word_step (lo, hi)).1 % 65521 =
        (bs.foldl adler32_spec_step (lo % 65521, hi % 65521)).1
    ∧ (bs.foldl adler_word_step (lo, hi)).2 % 65521 =
        (bs.foldl adler32_spec_step (lo % 65521, hi % 65521)).2 := by
  intro bs
  induction bs with
  | nil =>
    intro lo hi _ hlo hhi
    simp only [List.length_nil, adlerTri] at hlo hhi
    refine ⟨?_, ?_, rfl, rfl⟩ <;> simp only [List.foldl_nil] <;> omega
  | cons b rest ih =>
    intro lo hi hb hlo hhi
    have hb255 : b ≤ 255 := by have := hb b (by simp); omega
    have hbrest : ∀ x ∈ rest, x < 256 := fun x hx => hb x (by simp [hx])
    set K := rest.length with hK
    have hlenc : (b :: rest).length = K + 1 := by simp [hK]
    rw [hlenc] at hlo hhi
    have htri : adlerTri (K + 1) = adlerTri K + (K + 1) := rfl
    have hlo32 : lo + b < 2 ^ 32 := by omega
    have hhi32 : hi + (lo + b) < 2 ^ 32 := by
      have h1 : lo ≤ (K + 1) * lo := Nat.le_mul_of_pos_left lo (by omega)
      have h2 : 1 ≤ adlerTri (K + 1) := by rw [htri]; omega
      omega
    have hstep : adler_word_step (lo, hi) b = (lo + b, hi + (lo + b)) := by
      simp only [adler_word_step]
      rw [Nat.mod_eq_of_lt hlo32, Nat.mod_eq_of_lt hhi32]
    have hlo' : (lo + b) + 255 * K ≤ 1481280 := by omega
    have hhi' : (hi + (lo + b)) + K * (lo + b) + 255 * adlerTri K ≤ 4294690200 := by
      have heq : (hi + (lo + b)) + K * (lo + b) + 255 * adlerTri K =
          hi + (K + 1) * lo + (K + 1) * b + 255 * adlerTri K := by ring
      have hle : (K + 1) * b ≤ (K + 1) * 255 := Nat.mul_le_mul_left _ hb255
      have heq2 : hi + (K + 1) * lo + (K + 1) * 255 + 255 * adlerTri K =
          hi + (K + 1) * lo + 255 * adlerTri (K + 1) := by rw [htri]; ring
      omega
    have hres := ih (lo + b) (hi + (lo + b)) hbrest hlo' hhi'
    simp only [List.foldl_cons, hstep, adler32_spec_step, Prod.fst, Prod.snd]
    have h1 : (lo % 65521 + b) % 65521 = (lo + b) % 65521 := by omega
    rw [h1]
    have h2 : (hi % 65521 + (lo + b) % 65521) % 65521 = (hi + (lo + b)) % 65521 := by omega
    rw [h2]
    exact hres

theorem adler_spec_fold_lt :
    ∀ (bs : List Nat) (lo hi : Nat), lo < 65521 → hi < 65521 →
    (bs.foldl adler32_spec_step (lo, hi)).1 < 65521
    ∧ (bs.foldl adler32_spec_step (lo, hi)).2 < 65521 := by
  intro bs
  induction bs with
  | nil => intro lo hi hlo hhi; exact ⟨hlo, hhi⟩
  | cons b rest ih =>
    intro lo hi hlo hhi
    simp only [List.foldl_cons, adler32_spec_step]
    exact ih _ _ (Nat.mod_lt _ (by omega)) (Nat.mod_lt _ (by omega))

theorem adler_bounds {lo hi len : Nat} (hlo : lo < 65521) (hhi : hi < 65521)
    (hlen : len ≤ 5552) :
    lo + 255 * len ≤ 1481280 ∧ hi + len * lo + 255 * adlerTri len ≤ 4294690200 := by
  have hmul : len * lo ≤ 5552 * 65520 := Nat.mul_le_mul (by omega) (by omega)
  have htri : adlerTri len ≤ adlerTri 5552 := adlerTri_mono hlen
  have htri5552 : adlerTri 5552 = 15415128 := by
    have := adlerTri_two_mul 5552
    omega
  rw [htri5552] at htri
  constructor <;> omega

theorem combine_eq {h l : Nat} (hl : l < 65536) : (h <<< 16) ||| l = h * 65536 + l := by
  have hl' : l < 2 ^ 16 := by omega
  calc (h <<< 16) ||| l = (2 ^ 16 * h) ||| l := by rw [Nat.shiftLeft_eq, Nat.mul_comm]
    _ = 2 ^ 16 * h + l := (Nat.mul_add_lt_is_or hl' h).symm
    _ = h * 65536 + l := by ring

/-- With sufficient fuel the batched loop computes the reference fold. -/
theorem adler_loop_spec :
    ∀ (fuel : Nat) (bs : List Nat) (lo hi : Nat), (∀ b ∈ bs, b < 256) →
    bs.length ≤ 5552 * fuel + 5551 → lo < 65521 → hi < 65521 →
    deflate_calculate_adler32_loop fuel lo hi bs =
      (bs.foldl adler32_spec_step (lo, hi)).2 * 65536 +
        (bs.foldl adler32_spec_step (lo, hi)).1 := by
  intro fuel
  induction fuel with
  | zero =>
    intro bs lo hi hb hlen hlo hhi
    obtain ⟨hA, hB⟩ := adler_bounds hlo hhi (show bs.length ≤ 5552 by omega)
    obtain ⟨h1, h2, h3, h4⟩ := adler_raw_mod bs lo hi hb hA hB
    rw [Nat.mod_eq_of_lt hlo, Nat.mod_eq_of_lt hhi] at h3 h4
    obtain ⟨hs1, hs2⟩ := adler_spec_fold_lt bs lo hi hlo hhi
    simp only [deflate_calculate_adler32_loop]
    by_cases hpos : bs.length > 0
    · rw [if_pos hpos]
      rw [adler_reduce_eq h1, adler_reduce_eq h2, h3, h4]
      exact combine_eq (by omega)
    · rw [if_neg hpos]
      have hnil : bs = [] := List.eq_nil_of_length_eq_zero (by omega)
      subst hnil
      simp only [List.foldl_nil]
      exact combine_eq (by omega)
  | succ fuel ih =>
    intro bs lo hi hb hlen hlo hhi
    simp only [deflate_calculate_adler32_loop]
    by_cases hbig : bs.length ≥ 5552
    · rw [if_pos hbig]
      have htake : (bs.take 5552).length = 5552 := by simp; omega
      have hbtake : ∀ b ∈ bs.take 5552, b < 256 := fun b hbm => hb b (List.mem_of_mem_take hbm)
      obtain ⟨hA, hB⟩ := adler_bounds hlo hhi (le_of_eq htake)
      rw [htake] at hA hB
      obtain ⟨h1, h2, h3, h4⟩ := by
        have := adler_raw_mod (bs.take 5552) lo hi hbtake (by rw [htake]; exact hA)
          (by rw [htake]; exact hB)
        exact this
      rw [Nat.mod_eq_of_lt hlo, Nat.mod_eq_of_lt hhi] at h3 h4
      obtain ⟨hs1, hs2⟩ := adler_spec_fold_lt (bs.take 5552) lo hi hlo hhi
      have hdrop : ∀ b ∈ bs.drop 5552, b < 256 := fun b hbm => hb b (List.mem_of_mem_drop hbm)
      have hdlen : (bs.drop 5552).length ≤ 5552 * fuel + 5551 := by simp; omega
      rw [ih (bs.drop 5552) _ _ hdrop hdlen
        (by rw [adler_reduce_eq h1, h3]; exact hs1)
        (by rw [adler_reduce_eq h2, h4]; exact hs2)]
      rw [adler_reduce_eq h1, adler_reduce_eq h2, h3, h4]
      rw [← List.take_append_drop 5552 bs, List.foldl_append]
      congr 2 <;> rw [List.take_append_drop]
    · rw [if_neg hbig]
      obtain ⟨hA, hB⟩ := adler_bounds hlo hhi (show bs.length ≤ 5552 by omega)
      obtain ⟨h1, h2, h3, h4⟩ := adler_raw_mod bs lo hi hb hA hB
      rw [Nat.mod_eq_of_lt hlo, Nat.mod_eq_of_lt hhi] at h3 h4
      obtain ⟨hs1, hs2⟩ := adler_spec_fold_lt bs lo hi hlo hhi
      by_cases hpos : bs.length > 0
      · rw [if_pos hpos]
        rw [adler_reduce_eq h1, adler_reduce_eq h2, h3, h4]
        exact combine_eq (by omega)
      · rw [if_neg hpos]
        have hnil : bs = [] := List.eq_nil_of_length_eq_zero (by omega)
        subst hnil
        simp only [List.foldl_nil]
        exact combine_eq (by omega)

/-- **C10.** For every byte buffer, `deflate_calculate_adler32` with initial
value 1 — the batched 5552-byte deferred-modulo implementation — computes
exactly the reference Adler-32: starting from `lo = 1, hi = 0`, per byte
`lo = (lo + b) mod 65521; hi = (hi + lo) mod 65521`, result
`(hi << 16) | lo`. -/
theorem claim_C10_adler32_refines_reference (buffer : List Nat)
    (hb : ∀ b ∈ buffer, b < 256) :
    deflate_calculate_adler32 buffer 1 = adler32_reference buffer := by
  have h1 : (1 : Nat) &&& 0xffff = 1 := by decide
  have h2 : ((1 : Nat) >>> 16) &&& 0xffff = 0 := by decide
  rw [deflate_calculate_adler32, h1, h2, adler32_reference]
  exact adler_loop_spec buffer.length buffer 1 0 hb (by omega) (by omega) (by omega)

/-- Witness for C10 at a concrete input: the checksum of `"abc"`. -/
theorem claim_C10_adler32_refines_reference_witness :
    deflate_calculate_adler32 [97, 98, 99] 1 = adler32_reference [97, 98, 99]
    ∧ adler32_reference [97, 98, 99] = 0x024d0127 :=
  ⟨claim_C10_adler32_refines_reference [97, 98, 99] (by decide), by decide⟩

/-! ### Huffman table construction: `deflate_huffman_table_construct` -/

theorem histogram_spec (cs : List Nat) :
    ∀ z, (∀ c ∈ cs, c ≤ 16) →
    ∃ f, deflate_huffman_histogram cs z = some f ∧ ∀ k, f k = z k + cs.count k := by
  induction cs with
  | nil => intro z _; exact ⟨z, rfl, by simp⟩
  | cons c rest ih =>
    intro z hle
    have hc : c ≤ 16 := hle c (by simp)
    obtain ⟨f, hf, hfk⟩ := ih (updArr z c (z c + 1)) (fun x hx => hle x (by simp [hx]))
    refine ⟨f, ?_, ?_⟩
    · simp only [deflate_huffman_histogram, if_neg (by omega : ¬ c > 16)]
      exact hf
    · intro k
      rw [hfk k, List.count_cons]
      simp only [updArr]
      by_cases hk : k = c
      · subst hk; simp; omega
      · simp [hk, beq_iff_eq, Ne.symm hk]

theorem check_left_iff (cs : List Nat) (counts : Nat → Nat)
    (hcounts : ∀ k, counts k = cs.count k) :
    ∀ steps i l, i + steps = 16 → 1 ≤ i → l = spec_left_value cs (i - 1) →
    (deflate_huffman_check_left counts steps i l = true ↔
      ∃ k, i ≤ k ∧ k ≤ 15 ∧ spec_left_value cs k < 0) := by
  intro steps
  induction steps with
  | zero =>
    intro i l hi _ _
    simp only [deflate_huffman_check_left]
    constructor
    · intro h; cases h
    · rintro ⟨k, hk1, hk2, _⟩; omega
  | succ steps ih =>
    intro i l hi h1 hl
    simp only [deflate_huffman_check_left]
    have hspec : 2 * l - (counts i : Int) = spec_left_value cs i := by
      rw [hl, hcounts i]
      have : i = (i - 1) + 1 := by omega
      rw [this]
      simp only [spec_left_value, Nat.add_sub_cancel]
    by_cases hneg : 2 * l - (counts i : Int) < 0
    · rw [if_pos hneg]
      simp only [true_iff]
      exact ⟨i, Nat.le_refl i, by omega, by rwa [hspec] at hneg⟩
    · rw [if_neg hneg]
      rw [ih (i + 1) _ (by omega) (by omega) (by rw [Nat.add_sub_cancel]; rw [← hspec])]
      constructor
      · rintro ⟨k, hk1, hk2, hk3⟩; exact ⟨k, by omega, hk2, hk3⟩
      · rintro ⟨k, hk1, hk2, hk3⟩
        rcases Nat.eq_or_lt_of_le hk1 with rfl | hlt
        · rw [hspec] at hneg; omega
        · exact ⟨k, by omega, hk2, hk3⟩

theorem sumCounts_nil : ∀ k, sumCounts [] k = 0 := by
  intro k
  induction k with
  | zero => rfl
  | succ k ih => simp [sumCounts, ih]

theorem sumCounts_cons (c : Nat) (rest : List Nat) :
    ∀ k, sumCounts (c :: rest) k =
      sumCounts rest k + (if 1 ≤ c ∧ c ≤ k then 1 else 0) := by
  intro k
  induction k with
  | zero =>
    simp only [sumCounts]
    rw [if_neg (by omega : ¬ (1 ≤ c ∧ c ≤ 0))]
  | succ k ih =>
    simp only [sumCounts, ih, List.count_cons, beq_iff_eq]
    by_cases hc : c = k + 1
    · rw [if_pos hc, if_neg (by omega : ¬ (1 ≤ c ∧ c ≤ k)),
        if_pos (by omega : 1 ≤ c ∧ c ≤ k + 1)]
      omega
    · rw [if_neg hc]
      by_cases h1 : 1 ≤ c ∧ c ≤ k
      · rw [if_pos h1, if_pos (by omega : 1 ≤ c ∧ c ≤ k + 1)]
        omega
      · rw [if_neg h1, if_neg (by omega : ¬ (1 ≤ c ∧ c ≤ k + 1))]
        omega

theorem sumCounts_le_length (cs : List Nat) : ∀ k, sumCounts cs k ≤ cs.length := by
  induction cs with
  | nil => intro k; rw [sumCounts_nil]; simp
  | cons c rest ih =>
    intro k
    rw [sumCounts_cons]
    have := ih k
    simp only [List.length_cons]
    split <;> omega

theorem sumCounts_mono (cs : List Nat) {j k : Nat} (h : j ≤ k) :
    sumCounts cs j ≤ sumCounts cs k := by
  induction k with
  | zero => have : j = 0 := by omega
            simp [this]
  | succ k ih =>
    rcases Nat.lt_or_ge j (k + 1) with h' | h'
    · exact Nat.le_trans (ih (by omega)) (by simp [sumCounts])
    · have : j = k + 1 := by omega
      simp [this]

theorem offsets_spec (cs : List Nat) (counts : Nat → Nat)
    (hcounts : ∀ k, counts k = cs.count k) :
    ∀ steps i arr, i + steps = 15 → 1 ≤ i →
    (∀ j, 1 ≤ j → j ≤ i → arr j = (sumCounts cs (j - 1) : Int)) →
    ∀ j, 1 ≤ j → j ≤ 15 →
      deflate_huffman_offsets counts steps i arr j = (sumCounts cs (j - 1) : Int) := by
  intro steps
  induction steps with
  | zero =>
    intro i arr hi h1 harr j hj1 hj15
    simp only [deflate_huffman_offsets]
    exact harr j hj1 (by omega)
  | succ steps ih =>
    intro i arr hi h1 harr j hj1 hj15
    simp only [deflate_huffman_offsets]
    refine ih (i + 1) _ (by omega) (by omega) ?_ j hj1 hj15
    intro j' hj'1 hj'i
    simp only [updArrI]
    by_cases hj' : j' = i + 1
    · subst hj'
      rw [if_pos rfl, harr i h1 (Nat.le_refl i), hcounts i]
      have hsum : sumCounts cs i = sumCounts cs (i - 1) + cs.count i := by
        have : i = (i - 1) + 1 := by omega
        rw [this]
        simp only [sumCounts, Nat.add_sub_cancel]
      rw [Nat.add_sub_cancel, hsum]
      push_cast
      ring
    · rw [if_neg hj']
      exact harr j' hj'1 (by omega)

theorem place_some (N : Nat) :
    ∀ (rest : List Nat) (symbol : Nat) (offsets : Nat → Int) (codes : Nat → Nat),
    (∀ c ∈ rest, c ≤ 15) →
    (∀ k, 1 ≤ k → k ≤ 15 → 0 ≤ offsets k ∧ offsets k + rest.count k ≤ (N : Int)) →
    ∃ codes', deflate_huffman_place N rest symbol offsets codes = some codes' := by
  intro rest
  induction rest with
  | nil => intro symbol offsets codes _ _; exact ⟨codes, rfl⟩
  | cons c rest ih =>
    intro symbol offsets codes hle hinv
    by_cases hc0 : c = 0
    · subst hc0
      simp only [deflate_huffman_place, if_pos rfl]
      refine ih (symbol + 1) offsets codes (fun x hx => hle x (by simp [hx])) ?_
      intro k hk1 hk15
      obtain ⟨ha, hb⟩ := hinv k hk1 hk15
      have : rest.count k ≤ (0 :: rest).count k := by
        rw [List.count_cons]; omega
      constructor
      · exact ha
      · have : (rest.count k : Int) ≤ ((0 :: rest).count k : Int) := by exact_mod_cast this
        omega
    · have hc1 : 1 ≤ c := by omega
      have hc15 : c ≤ 15 := hle c (by simp)
      obtain ⟨ha, hb⟩ := hinv c hc1 hc15
      have hcount : (c :: rest).count c = rest.count c + 1 := by
        rw [List.count_cons]; simp
      have hco : offsets c ≤ (N : Int) - 1 := by
        rw [hcount] at hb
        push_cast at hb
        omega
      simp only [deflate_huffman_place, if_neg hc0]
      rw [if_neg (by omega : ¬ (offsets c < 0 ∨ offsets c > (N : Int)))]
      refine ih (symbol + 1) _ _ (fun x hx => hle x (by simp [hx])) ?_
      intro k hk1 hk15
      simp only [updArrI]
      by_cases hk : k = c
      · subst hk
        rw [if_pos rfl]
        constructor
        · omega
        · rw [hcount] at hb
          push_cast at hb ⊢
          omega
      · rw [if_neg hk]
        obtain ⟨ha', hb'⟩ := hinv k hk1 hk15
        have : (c :: rest).count k = rest.count k := by
          rw [List.count_cons]
          simp [beq_iff_eq, Ne.symm]
          omega
        rw [this] at hb'
        exact ⟨ha', hb'⟩

theorem spec_left_pos (cs : List Nat) (hzero : ∀ j, 1 ≤ j → cs.count j = 0) :
    ∀ k, 0 < spec_left_value cs k := by
  intro k
  induction k with
  | zero => simp [spec_left_value]
  | succ k ih =>
    simp only [spec_left_value, hzero (k + 1) (by omega)]
    omega

/-- **C7.** With in-range code sizes (each `≤ 15`),
`deflate_huffman_table_construct` fails with the over-subscribed error exactly
when the iteration `left := 2*left - count[len]` over `len = 1..=15` starting
from `left = 1` goes negative at some step; an incomplete set (`left` never
negative, some code present) is not rejected and yields a usable table
(return value 1 with the constructed table). -/
theorem claim_C7_oversubscribed_iff (code_sizes_array : List Nat)
    (hle : ∀ c ∈ code_sizes_array, c ≤ 15) :
    ((deflate_huffman_table_construct code_sizes_array).isOverSubscribed = true ↔
      ∃ k, 1 ≤ k ∧ k ≤ 15 ∧ spec_left_value code_sizes_array k < 0)
    ∧ ((∀ k, 1 ≤ k → k ≤ 15 → 0 ≤ spec_left_value code_sizes_array k) →
       (∃ c ∈ code_sizes_array, c ≠ 0) →
      (deflate_huffman_table_construct code_sizes_array).isSuccess = true) := by
  obtain ⟨counts, hhist, hcounts0⟩ :=
    histogram_spec code_sizes_array (fun _ => 0)
      (fun c hc => Nat.le_trans (hle c hc) (by omega))
  have hcounts : ∀ k, counts k = code_sizes_array.count k := fun k => by
    rw [hcounts0 k]
    omega
  by_cases hempty : counts 0 = code_sizes_array.length
  · -- the table has no codes: all code sizes are zero
    have hallzero : ∀ b ∈ code_sizes_array, b = 0 := by
      rw [hcounts 0] at hempty
      intro b hb
      exact (List.count_eq_length.mp hempty b hb).symm
    have hzero : ∀ j, 1 ≤ j → code_sizes_array.count j = 0 := by
      intro j hj
      rw [List.count_eq_zero]
      intro hmem
      have := hallzero j hmem
      omega
    have hconstruct :
        deflate_huffman_table_construct code_sizes_array = .empty := by
      simp only [deflate_huffman_table_construct, hhist, if_pos hempty]
    constructor
    · rw [hconstruct]
      simp only [ConstructResult.isOverSubscribed]
      constructor
      · intro h; cases h
      · rintro ⟨k, hk1, _, hk3⟩
        have := spec_left_pos code_sizes_array hzero k
        omega
    · rintro _ ⟨c, hc, hcz⟩
      exact absurd (hallzero c hc) hcz
  · have hiff := check_left_iff code_sizes_array counts hcounts 15 1 1 (by omega) (by omega) rfl
    by_cases hcheck : deflate_huffman_check_left counts 15 1 1 = true
    · have hconstruct :
          deflate_huffman_table_construct code_sizes_array = .error .overSubscribed := by
        simp only [deflate_huffman_table_construct, hhist, if_neg hempty, if_pos hcheck]
      constructor
      · rw [hconstruct]
        simp only [ConstructResult.isOverSubscribed, true_iff]
        exact hiff.mp hcheck
      · intro hnoneg _
        obtain ⟨k, hk1, hk15, hneg⟩ := hiff.mp hcheck
        have := hnoneg k hk1 hk15
        omega
    · -- not over-subscribed: the placement succeeds and the table is usable
      have hinv : ∀ k, 1 ≤ k → k ≤ 15 →
          0 ≤ deflate_huffman_offsets counts 14 1 (fun _ => 0) k
          ∧ deflate_huffman_offsets counts 14 1 (fun _ => 0) k +
              code_sizes_array.count k ≤ (code_sizes_array.length : Int) := by
        intro k hk1 hk15
        have hoff := offsets_spec code_sizes_array counts hcounts 14 1 (fun _ => 0)
          (by omega) (by omega)
          (fun j hj1 hji => by
            have : j = 1 := by omega
            subst this
            simp [sumCounts])
          k hk1 hk15
        rw [hoff]
        have hsum : sumCounts code_sizes_array k =
            sumCounts code_sizes_array (k - 1) + code_sizes_array.count k := by
          have hk : k = (k - 1) + 1 := by omega
          rw [hk]
          simp only [sumCounts, Nat.add_sub_cancel]
        have hlen := sumCounts_le_length code_sizes_array k
        constructor
        · positivity
        · rw [hsum] at hlen
          omega
      obtain ⟨codes', hplace⟩ := place_some code_sizes_array.length code_sizes_array 0
        (deflate_huffman_offsets counts 14 1 (fun _ => 0)) (fun _ => 0) hle hinv
      have hconstruct : (deflate_huffman_table_construct code_sizes_array).isSuccess = true := by
        simp only [deflate_huffman_table_construct, hhist, if_neg hempty, if_neg hcheck,
          hplace, ConstructResult.isSuccess]
      constructor
      · constructor
        · intro h
          exfalso
          revert h
          simp only [deflate_huffman_table_construct, hhist, if_neg hempty, if_neg hcheck,
            hplace, ConstructResult.isOverSubscribed]
          intro h
          cases h
        · intro hex
          exact absurd (hiff.mpr hex) hcheck
      · intro _ _
        exact hconstruct

/-- Witness for C7 at concrete inputs: `[1,1,1]` (three codes of length 1) is
over-subscribed; `[1]` (a single one-bit code, an incomplete set) yields a
usable table. -/
theorem claim_C7_oversubscribed_iff_witness :
    ((deflate_huffman_table_construct [1, 1, 1]).isOverSubscribed = true ↔
      ∃ k, 1 ≤ k ∧ k ≤ 15 ∧ spec_left_value [1, 1, 1] k < 0)
    ∧ (deflate_huffman_table_construct [1]).isSuccess = true :=
  ⟨(claim_C7_oversubscribed_iff [1, 1, 1] (by decide)).1,
   (claim_C7_oversubscribed_iff [1] (by decide)).2
     (by decide)
     ⟨1, by decide, by decide⟩⟩

/-! ### Concrete behaviour of the decoder on the claimed scenarios -/

/-- **C6** (code bug.)  The histogram loop of
`deflate_huffman_table_construct` compares `code_size > number_of_codes` with
`number_of_codes = 16`: a code size of exactly 16 — which exceeds the claimed
limit 15 — is *not* rejected, and the count at index 16 (one past the end of
the 16-entry C array `code_counts_array[16]`) is incremented; on the
one-entry vector `[16]` the whole construction then returns success instead
of an error. -/
theorem claim_C6_code_size_16_accepted :
    deflate_huffman_histogram [16] (fun _ => 0) ≠ none
    ∧ (∀ f, deflate_huffman_histogram [16] (fun _ => 0) = some f → f 16 = 1)
    ∧ (deflate_huffman_table_construct [16]).isSuccess = true := by
  refine ⟨?_, ?_, rfl⟩
  · intro h
    simp [deflate_huffman_histogram] at h
  · intro f h
    simp only [deflate_huffman_histogram] at h
    rw [if_neg (by omega)] at h
    simp only [deflate_huffman_histogram, Option.some.injEq] at h
    subst h
    rfl

set_option maxRecDepth 1000000 in
/-- **C2** (code bug.)  Decoding the stored block of specification scenario 4
— LEN = 256 (bytes `00 01`), NLEN = 0xFEFF (bytes `FF FE`, the correct
one's-complement), followed by the 256 payload bytes `00..FF` — fails with
the block-size-mismatch error instead of copying the 256 bytes: at line 1873
`block_size_copy` is recomputed from the already-masked `block_size`, so it
equals `0xffff` for every input and NLEN is never actually compared (the
second conjunct states that constant). -/
theorem claim_C2_stored_block_mismatch_bug :
    deflate_decode_stored ([0, 1, 255, 254] ++ List.range 256) 260 300 ⟨0, 0, 0⟩ []
      = .error .blockSizeMismatch
    ∧ (∀ v : Nat, ((v &&& 0xffff) >>> 16) ^^^ 0xffff = 0xffff) := by
  constructor
  · rfl
  · intro v
    have h1 : v &&& 0xffff < 2 ^ 16 := by
      have h : (65535 : Nat) = 2 ^ 16 - 1 := by norm_num
      rw [h, Nat.and_pow_two_sub_one_eq_mod]
      exact Nat.mod_lt _ (by positivity)
    have h2 : (v &&& 0xffff) >>> 16 = 0 := by
      rw [Nat.shiftRight_eq_div_pow]
      exact Nat.div_eq_of_lt h1
    rw [h2]
    rfl

set_option maxRecDepth 1000000 in
/-- **C1** (code bug.)  A zlib-compliant compression of the single byte
`0xAA`: header `78 01` (method 8, 32K window, check bits valid: 0x7801 is a
multiple of 31), one final stored block (`BFINAL=1, BTYPE=00`, LEN = 1,
NLEN = 0xFFFE stored little-endian as `01 00 FE FF`), payload `AA`, trailer
`00 AB 00 AB` = Adler-32 of `[0xAA]` (second conjunct).  The claim requires
`deflate_decompress` to succeed with output `[0xAA]`; the code rejects the
stream with the block-size-mismatch error (the stored-block bug of C2). -/
theorem claim_C1_roundtrip_fails_on_stored_block :
    deflate_decompress [0x78, 0x01, 0x01, 0x01, 0x00, 0xFE, 0xFF, 0xAA, 0x00, 0xAB, 0x00, 0xAB]
        16 = .error .blockSizeMismatch
    ∧ adler32_reference [0xAA] = byte_stream_to_uint32_big_endian 0x00 0xAB 0x00 0xAB := by
  constructor
  · rfl
  · rfl

set_option maxRecDepth 1000000 in
/-- **C3** (code bug.)  The valid empty stream `78 9C 03 00 00 00 00 01`
with its final Adler byte flipped (`... 00 00 00 00`): `deflate_decompress`
succeeds with empty output although the stored trailer (0) differs from the
Adler-32 of the output (1).  The checksum is never examined because the
header parsing subtracts the header size from `compressed_data_size` while
also advancing the offset, so fewer than 4 visible bytes remain after the
last block (see C4) and verification is skipped; the claim's
`ChecksumMismatch` failure does not occur, and on this "success" the trailer
does not equal the output's Adler-32. -/
theorem claim_C3_flipped_trailer_accepted :
    deflate_decompress [0x78, 0x9C, 0x03, 0x00, 0x00, 0x00, 0x00, 0x00] 16 = .ok []
    ∧ deflate_calculate_adler32 [] 1 = 1
    ∧ byte_stream_to_uint32_big_endian 0x00 0x00 0x00 0x00 ≠ 1 := by
  refine ⟨?_, rfl, by decide⟩
  rfl

set_option maxRecDepth 1000000 in
/-- **C5** (counterexample.)  An input whose zlib header has the `fdict` bit
(bit 5 of byte 1) set on which `deflate_decompress` returns success — there
is no preset-dictionary failure; the decoder records the identifier and keeps
decoding. -/
theorem claim_C5_fdict_succeeds_counterexample :
    ([0x78, 0x20, 0, 0, 0, 1, 0x03, 0, 0, 0, 0, 0, 0, 0].getD 1 0) &&& 0x20 ≠ 0
    ∧ deflate_decompress [0x78, 0x20, 0, 0, 0, 1, 0x03, 0, 0, 0, 0, 0, 0, 0] 16 = .ok [] := by
  refine ⟨by decide, ?_⟩
  rfl

/-- **C5** (amended.)  For every input whose zlib header has bit 5 of byte 1
(`fdict`) set — with a supported method and window, and enough bytes that the
header checks pass — the decoder reads bytes 2-5 as a big-endian
preset-dictionary identifier, records it, skips those 4 bytes (continuing at
offset 6 with the reduced stream size), and proceeds with decompression
instead of failing: no preset-dictionary error exists in the decoder. -/
theorem claim_C5_fdict_records_identifier (data : List Nat)
    (hdict : data.getD 1 0 &&& 0x20 ≠ 0)
    (hlen : 6 ≤ data.length)
    (hmethod : data.getD 0 0 &&& 0x0f = 8)
    (hinfo : data.getD 0 0 >>> 4 ≤ 7)
    (hoff : 6 < data.length - 6) :
    deflate_read_zlib_header data = .ok (6, data.length - 6,
      byte_stream_to_uint32_big_endian (data.getD 2 0) (data.getD 3 0)
        (data.getD 4 0) (data.getD 5 0)) := by
  have hwin : ¬ 2 ^ (data.getD 0 0 >>> 4 + 8) > 32768 := by
    have h15 : 2 ^ (data.getD 0 0 >>> 4 + 8) ≤ 2 ^ 15 :=
      Nat.pow_le_pow_right (by omega) (by omega)
    omega
  simp only [deflate_read_zlib_header, if_neg (by omega : ¬ data.length < 2),
    if_neg (by omega : ¬ data.length < 6), hdict, if_neg (by omega : ¬ (6 : Nat) = 0)]
  simp only [ne_eq, hdict, not_false_eq_true, if_true, if_neg (by omega : ¬ data.length < 6)]
  simp only [hmethod, if_neg (by omega : ¬ (8 : Nat) ≠ 8), if_neg hwin,
    if_neg (by omega : ¬ 4 + 2 ≥ data.length - 4 - 2)]
  constructor

/-- Witness for the amended C5 at the concrete counterexample input. -/
theorem claim_C5_fdict_records_identifier_witness :
    deflate_read_zlib_header [0x78, 0x20, 0, 0, 0, 1, 0x03, 0, 0, 0, 0, 0, 0, 0] =
      .ok (6, 14 - 6, byte_stream_to_uint32_big_endian 0 0 0 1) :=
  claim_C5_fdict_records_identifier [0x78, 0x20, 0, 0, 0, 1, 0x03, 0, 0, 0, 0, 0, 0, 0]
    (by decide) (by decide) (by decide) (by decide) (by decide)

/-! ### C4: the reduced stream size — what the decoder can and cannot read -/

theorem refill_congr (data₁ data₂ : List Nat) (size n : Nat)
    (h : ∀ i, i < size → data₁.getD i 0 = data₂.getD i 0) :
    ∀ fuel s, deflate_bit_stream_refill data₁ size n fuel s =
      deflate_bit_stream_refill data₂ size n fuel s := by
  intro fuel
  induction fuel with
  | zero => intro s; rfl
  | succ fuel ih =>
    intro s
    simp only [deflate_bit_stream_refill]
    by_cases h1 : s.bit_buffer_size < n
    · rw [if_pos h1, if_pos h1]
      by_cases h2 : s.byte_stream_offset ≥ size
      · rw [if_pos h2, if_pos h2]
      · rw [if_neg h2, if_neg h2]
        rw [show deflate_bit_stream_pull data₁ s = deflate_bit_stream_pull data₂ s from by
          simp only [deflate_bit_stream_pull, h s.byte_stream_offset (by omega)]]
        exact ih _
    · rw [if_neg h1, if_neg h1]

theorem get_value_congr (data₁ data₂ : List Nat) (size n : Nat)
    (h : ∀ i, i < size → data₁.getD i 0 = data₂.getD i 0) (s : BitStream) :
    deflate_bit_stream_get_value data₁ size n s =
      deflate_bit_stream_get_value data₂ size n s := by
  simp only [deflate_bit_stream_get_value, refill_congr data₁ data₂ size n h]

theorem fill_congr (data₁ data₂ : List Nat) (size m : Nat)
    (h : ∀ i, i < size → data₁.getD i 0 = data₂.getD i 0) :
    ∀ fuel s, deflate_bit_stream_fill data₁ size m fuel s =
      deflate_bit_stream_fill data₂ size m fuel s := by
  intro fuel
  induction fuel with
  | zero => intro s; rfl
  | succ fuel ih =>
    intro s
    simp only [deflate_bit_stream_fill]
    by_cases h1 : s.bit_buffer_size < m
    · rw [if_pos h1, if_pos h1]
      by_cases h2 : s.byte_stream_offset ≥ size
      · rw [if_pos h2, if_pos h2]
      · rw [if_neg h2, if_neg h2]
        rw [show deflate_bit_stream_pull data₁ s = deflate_bit_stream_pull data₂ s from by
          simp only [deflate_bit_stream_pull, h s.byte_stream_offset (by omega)]]
        exact ih _
    · rw [if_neg h1, if_neg h1]

theorem get_huffman_congr (data₁ data₂ : List Nat) (size : Nat)
    (h : ∀ i, i < size → data₁.getD i 0 = data₂.getD i 0) (table : HuffTable) (s : BitStream) :
    deflate_bit_stream_get_huffman_encoded_value data₁ size table s =
      deflate_bit_stream_get_huffman_encoded_value data₂ size table s := by
  simp only [deflate_bit_stream_get_huffman_encoded_value,
    fill_congr data₁ data₂ size table.maximum_number_of_bits h]

theorem decode_stored_congr (data₁ data₂ : List Nat) (size cap : Nat)
    (h : ∀ i, i < size → data₁.getD i 0 = data₂.getD i 0) (s : BitStream) (out : List Nat) :
    deflate_decode_stored data₁ size cap s out = deflate_decode_stored data₂ size cap s out := by
  simp only [deflate_decode_stored, get_value_congr data₁ data₂ size _ h]
  cases hv : (if s.bit_buffer_size &&& 0x07 > 0 then
      deflate_bit_stream_get_value data₂ size (s.bit_buffer_size &&& 0x07) s
    else .ok (0, s)) with
  | error e => rfl
  | ok p =>
    obtain ⟨_, s1⟩ := p
    simp only [get_value_congr data₁ data₂ size 32 h]
    cases hv2 : deflate_bit_stream_get_value data₂ size 32 s1 with
    | error e => rfl
    | ok q =>
      obtain ⟨bs0, s2⟩ := q
      simp only []
      by_cases hmm : bs0 &&& 0xffff ≠ (bs0 &&& 0xffff) >>> 16 ^^^ 0xffff
      · rw [if_pos hmm, if_pos hmm]
      · rw [if_neg hmm, if_neg hmm]
        by_cases hz : bs0 &&& 0xffff = 0
        · rw [if_pos hz, if_pos hz]
        · rw [if_neg hz, if_neg hz]
          by_cases hts : bs0 &&& 0xffff > size - s2.byte_stream_offset
          · rw [if_pos hts, if_pos hts]
          · rw [if_neg hts, if_neg hts]
            by_cases hcap : bs0 &&& 0xffff > cap - out.length
            · rw [if_pos hcap, if_pos hcap]
            · rw [if_neg hcap, if_neg hcap]
              have hcopy : (List.range (bs0 &&& 0xffff)).map
                    (fun i => data₁.getD (s2.byte_stream_offset + i) 0) =
                  (List.range (bs0 &&& 0xffff)).map
                    (fun i => data₂.getD (s2.byte_stream_offset + i) 0) := by
                refine List.map_congr_left ?_
                intro i hi
                rw [List.mem_range] at hi
                exact h _ (by omega)
              rw [hcopy]

theorem read_code_size_codes_congr (data₁ data₂ : List Nat) (size : Nat)
    (h : ∀ i, i < size → data₁.getD i 0 = data₂.getD i 0) :
    ∀ remaining index arr s,
      deflate_read_code_size_codes data₁ size remaining index arr s =
        deflate_read_code_size_codes data₂ size remaining index arr s := by
  intro remaining
  induction remaining with
  | zero => intro index arr s; rfl
  | succ remaining ih =>
    intro index arr s
    simp only [deflate_read_code_size_codes, get_value_congr data₁ data₂ size 3 h]
    cases deflate_bit_stream_get_value data₂ size 3 s with
    | error e => rfl
    | ok p => exact ih _ _ _

theorem read_dynamic_code_sizes_congr (data₁ data₂ : List Nat) (size : Nat)
    (h : ∀ i, i < size → data₁.getD i 0 = data₂.getD i 0) (codes_table : HuffTable)
    (n : Nat) :
    ∀ fuel index arr s,
      deflate_read_dynamic_code_sizes data₁ size codes_table n fuel index arr s =
        deflate_read_dynamic_code_sizes data₂ size codes_table n fuel index arr s := by
  intro fuel
  induction fuel with
  | zero => intro index arr s; rfl
  | succ fuel ih =>
    intro index arr s
    simp only [deflate_read_dynamic_code_sizes, get_huffman_congr data₁ data₂ size h,
      get_value_congr data₁ data₂ size _ h]
    by_cases hlt : index < n
    · rw [if_pos hlt, if_pos hlt]
      cases deflate_bit_stream_get_huffman_encoded_value data₂ size codes_table s with
      | error e => rfl
      | ok p =>
        obtain ⟨symbol, s1⟩ := p
        simp only [get_value_congr data₁ data₂ size _ h]
        by_cases h16 : symbol < 16
        · rw [if_pos h16, if_pos h16]
          exact ih _ _ _
        · rw [if_neg h16, if_neg h16]
          cases hinner : (if symbol = 16 then
              if index = 0 then .error .invalidCodeSizeIndex
              else
                match deflate_bit_stream_get_value data₂ size 2 s1 with
                | .error e => .error e
                | .ok (t, s) => .ok (arr (index - 1), t + 3, s)
            else if symbol = 17 then
              match deflate_bit_stream_get_value data₂ size 3 s1 with
              | .error e => .error e
              | .ok (t, s) => .ok (0, t + 3, s)
            else if symbol = 18 then
              match deflate_bit_stream_get_value data₂ size 7 s1 with
              | .error e => .error e
              | .ok (t, s) => .ok (0, t + 11, s)
            else (.error .invalidCodeValue :
              Except DeflateError (Nat × Nat × BitStream))) with
          | error e => rfl
          | ok q =>
            obtain ⟨code_size, times, s2⟩ := q
            simp only []
            by_cases hrep : index + times > n
            · rw [if_pos hrep, if_pos hrep]
            · rw [if_neg hrep, if_neg hrep]
              exact ih _ _ _
    · rw [if_neg hlt, if_neg hlt]

theorem dynamic_tables_congr (data₁ data₂ : List Nat) (size : Nat)
    (h : ∀ i, i < size → data₁.getD i 0 = data₂.getD i 0) (s : BitStream) :
    deflate_dynamic_huffman_tables data₁ size s =
      deflate_dynamic_huffman_tables data₂ size s := by
  simp only [deflate_dynamic_huffman_tables, get_value_congr data₁ data₂ size 14 h,
    read_code_size_codes_congr data₁ data₂ size h,
    read_dynamic_code_sizes_congr data₁ data₂ size h]

/-- Unfolding equation for `deflate_decode_huffman` at positive fuel
(definitional; stated once because tactic-side unfolding of this recursion is
expensive). -/
theorem decode_huffman_succ (data : List Nat) (size : Nat)
    (literals_table distances_table : HuffTable) (cap fuel : Nat) (s : BitStream)
    (out : List Nat) :
      deflate_decode_huffman data size literals_table distances_table cap (fuel + 1) s out =
        match deflate_bit_stream_get_huffman_encoded_value data size literals_table s with
        | .error e => .error e
        | .ok (code_value, s) =>
          if code_value < 256 then
            if out.length ≥ cap then
              .error .uncompressedDataTooSmall
            else
              deflate_decode_huffman data size literals_table distances_table
                cap fuel s (out ++ [code_value % 256])
          else if 256 < code_value ∧ code_value < 286 then
            match deflate_decode_match data size distances_table cap
                code_value s out with
            | .error e => .error e
            | .ok (code_value, s, out) =>
              if code_value ≠ 256 then
                deflate_decode_huffman data size literals_table distances_table
                  cap fuel s out
              else .ok (s, out)
          else if code_value ≠ 256 then .error .invalidCodeValue
          else .ok (s, out) := rfl

set_option maxRecDepth 10000 in
theorem decode_match_congr (data₁ data₂ : List Nat) (size : Nat)
    (h : ∀ i, i < size → data₁.getD i 0 = data₂.getD i 0)
    (distances_table : HuffTable) (cap code_value : Nat) (s : BitStream) (out : List Nat) :
    deflate_decode_match data₁ size distances_table cap code_value s out =
      deflate_decode_match data₂ size distances_table cap code_value s out := by
  unfold deflate_decode_match
  simp only []
  rw [get_value_congr data₁ data₂ size _ h]
  cases deflate_bit_stream_get_value data₂ size
      (literal_codes_number_of_extra_bits.getD (code_value - 257) 0) s with
  | error e => rfl
  | ok p =>
    obtain ⟨extra, s1⟩ := p
    simp only []
    rw [get_huffman_congr data₁ data₂ size h]
    cases deflate_bit_stream_get_huffman_encoded_value data₂ size distances_table s1 with
    | error e => rfl
    | ok q =>
      obtain ⟨dcode, s2⟩ := q
      simp only []
      rw [get_value_congr data₁ data₂ size _ h]

set_option maxRecDepth 10000 in
theorem decode_huffman_congr (data₁ data₂ : List Nat) (size : Nat)
    (h : ∀ i, i < size → data₁.getD i 0 = data₂.getD i 0)
    (literals_table distances_table : HuffTable) (cap : Nat) :
    ∀ fuel s out,
      deflate_decode_huffman data₁ size literals_table distances_table cap fuel s out =
        deflate_decode_huffman data₂ size literals_table distances_table cap fuel s out := by
  intro fuel
  induction fuel with
  | zero => intro s out; rfl
  | succ fuel ih =>
    intro s out
    rw [decode_huffman_succ, decode_huffman_succ, get_huffman_congr data₁ data₂ size h]
    cases deflate_bit_stream_get_huffman_encoded_value data₂ size literals_table s with
    | error e => rfl
    | ok p =>
      obtain ⟨code_value, s1⟩ := p
      simp only []
      by_cases hlit : code_value < 256
      · rw [if_pos hlit, if_pos hlit]
        by_cases hfull : out.length ≥ cap
        · rw [if_pos hfull, if_pos hfull]
        · rw [if_neg hfull, if_neg hfull]
          exact ih _ _
      · rw [if_neg hlit, if_neg hlit]
        by_cases hlen : 256 < code_value ∧ code_value < 286
        · rw [if_pos hlen, if_pos hlen]
          rw [decode_match_congr data₁ data₂ size h]
          cases deflate_decode_match data₂ size distances_table cap code_value s1 out with
          | error e => rfl
          | ok q =>
            obtain ⟨dcode, s2, out2⟩ := q
            simp only []
            by_cases hd : dcode ≠ 256
            · rw [if_pos hd, if_pos hd]
              exact ih _ _
            · rw [if_neg hd, if_neg hd]
        · rw [if_neg hlen, if_neg hlen]

theorem block_loop_congr (data₁ data₂ : List Nat) (size : Nat)
    (h : ∀ i, i < size → data₁.getD i 0 = data₂.getD i 0)
    (flit fdist : HuffTable) (cap : Nat) :
    ∀ fuel s out,
      deflate_block_loop data₁ size flit fdist cap fuel s out =
        deflate_block_loop data₂ size flit fdist cap fuel s out := by
  intro fuel
  induction fuel with
  | zero => intro s out; rfl
  | succ fuel ih =>
    intro s out
    simp only [deflate_block_loop, get_value_congr data₁ data₂ size 3 h]
    by_cases hoff : s.byte_stream_offset < size
    · rw [if_pos hoff, if_pos hoff]
      cases deflate_bit_stream_get_value data₂ size 3 s with
      | error e => rfl
      | ok p =>
        obtain ⟨v, s1⟩ := p
        simp only [decode_stored_congr data₁ data₂ size cap h,
          decode_huffman_congr data₁ data₂ size h, dynamic_tables_congr data₁ data₂ size h]
        cases hblock : (match v >>> 1 with
          | 0 => deflate_decode_stored data₂ size cap s1 out
          | 1 => deflate_decode_huffman data₂ size flit fdist cap fuel s1 out
          | 2 =>
            match deflate_dynamic_huffman_tables data₂ size s1 with
            | .error e => .error e
            | .ok (dlit, ddist, s2) =>
              deflate_decode_huffman data₂ size dlit ddist cap fuel s2 out
          | _ => .error .unsupportedBlockType) with
        | error e => rfl
        | ok q =>
          obtain ⟨s2, out2⟩ := q
          simp only []
          by_cases hlast : v &&& 0x01 ≠ 0
          · rw [if_pos hlast, if_pos hlast]
          · rw [if_neg hlast, if_neg hlast]
            exact ih _ _
    · rw [if_neg hoff, if_neg hoff]

theorem rewind_offset_le : ∀ fuel s,
    (deflate_rewind fuel s).byte_stream_offset ≤ s.byte_stream_offset := by
  intro fuel
  induction fuel with
  | zero => intro s; exact Nat.le_refl _
  | succ fuel ih =>
    intro s
    simp only [deflate_rewind]
    by_cases h8 : s.bit_buffer_size ≥ 8
    · rw [if_pos h8]
      exact Nat.le_trans (ih _) (by simp)
    · rw [if_neg h8]

theorem check_trailer_congr (data₁ data₂ : List Nat) (size : Nat)
    (h : ∀ i, i < size → data₁.getD i 0 = data₂.getD i 0) (s : BitStream) (out : List Nat) :
    deflate_check_trailer data₁ size s out = deflate_check_trailer data₂ size s out := by
  simp only [deflate_check_trailer]
  by_cases h4 : size - s.byte_stream_offset ≥ 4
  · rw [if_pos h4, if_pos h4]
    have hle := rewind_offset_le s.bit_buffer_size s
    have h0 := h (deflate_rewind s.bit_buffer_size s).byte_stream_offset (by omega)
    have h1 := h ((deflate_rewind s.bit_buffer_size s).byte_stream_offset + 1) (by omega)
    have h2 := h ((deflate_rewind s.bit_buffer_size s).byte_stream_offset + 2) (by omega)
    have h3 := h ((deflate_rewind s.bit_buffer_size s).byte_stream_offset + 3) (by omega)
    rw [h0, h1, h2, h3]
  · rw [if_neg h4, if_neg h4]

theorem read_zlib_header_sizes (data : List Nat) (off size pid : Nat)
    (h : deflate_read_zlib_header data = .ok (off, size, pid)) :
    (data.getD 1 0 &&& 0x20 = 0 → off = 2 ∧ size = data.length - 2)
    ∧ (data.getD 1 0 &&& 0x20 ≠ 0 → off = 6 ∧ size = data.length - 6) := by
  by_cases hl2 : data.length < 2
  · rw [deflate_read_zlib_header, if_pos hl2] at h
    cases h
  · by_cases hd : data.getD 1 0 &&& 0x20 ≠ 0
    · by_cases hl6 : data.length < 6
      · rw [deflate_read_zlib_header, if_neg hl2, if_pos hd, if_pos hl6] at h
        cases h
      · rw [deflate_read_zlib_header, if_neg hl2, if_pos hd, if_neg hl6] at h
        simp only [] at h
        by_cases hm : data.getD 0 0 &&& 0x0f ≠ 8
        · rw [if_pos hm] at h
          cases h
        · rw [if_neg hm] at h
          by_cases hw : 2 ^ (data.getD 0 0 >>> 4 + 8) > 32768
          · rw [if_pos hw] at h
            cases h
          · rw [if_neg hw] at h
            by_cases ho : 4 + 2 ≥ data.length - 4 - 2
            · rw [if_pos ho] at h
              cases h
            · rw [if_neg ho] at h
              simp only [Except.ok.injEq, Prod.mk.injEq] at h
              obtain ⟨hoff, hsize, hpid⟩ := h
              exact ⟨fun hc => absurd hc hd, fun _ => ⟨by omega, by omega⟩⟩
    · rw [deflate_read_zlib_header, if_neg hl2, if_neg hd] at h
      simp only [] at h
      by_cases hm : data.getD 0 0 &&& 0x0f ≠ 8
      · rw [if_pos hm] at h
        cases h
      · rw [if_neg hm] at h
        by_cases hw : 2 ^ (data.getD 0 0 >>> 4 + 8) > 32768
        · rw [if_pos hw] at h
          cases h
        · rw [if_neg hw] at h
          by_cases ho : 0 + 2 ≥ data.length - 2
          · rw [if_pos ho] at h
            cases h
          · rw [if_neg ho] at h
            simp only [Except.ok.injEq, Prod.mk.injEq] at h
            obtain ⟨hoff, hsize, hpid⟩ := h
            exact ⟨fun _ => ⟨by omega, by omega⟩, fun hc => absurd (by omega) hc⟩

theorem read_zlib_header_congr (data₁ data₂ : List Nat)
    (hlen : data₁.length = data₂.length)
    (h01 : ∀ i, i < 2 → data₁.getD i 0 = data₂.getD i 0)
    (hf : data₁.getD 1 0 &&& 0x20 ≠ 0 → ∀ i, i < 6 → data₁.getD i 0 = data₂.getD i 0) :
    deflate_read_zlib_header data₁ = deflate_read_zlib_header data₂ := by
  simp only [deflate_read_zlib_header, ← hlen, ← h01 0 (by omega), ← h01 1 (by omega)]
  by_cases hd : data₁.getD 1 0 &&& 0x20 ≠ 0
  · rw [if_pos hd, if_pos hd]
    by_cases hl6 : data₁.length < 6
    · rw [if_pos hl6, if_pos hl6]
    · rw [if_neg hl6, if_neg hl6, hf hd 2 (by omega), hf hd 3 (by omega), hf hd 4 (by omega),
        hf hd 5 (by omega)]
  · rw [if_neg hd, if_neg hd]

theorem decompress_congr_aux (data₁ data₂ : List Nat) (cap : Nat)
    (hlen : data₁.length = data₂.length)
    (h01 : ∀ i, i < 2 → data₁.getD i 0 = data₂.getD i 0)
    (hf : data₁.getD 1 0 &&& 0x20 ≠ 0 → ∀ i, i < 6 → data₁.getD i 0 = data₂.getD i 0)
    (hagree : data₁.getD 1 0 &&& 0x20 = 0 →
      ∀ i, i < data₁.length - 2 → data₁.getD i 0 = data₂.getD i 0)
    (hagreef : data₁.getD 1 0 &&& 0x20 ≠ 0 →
      ∀ i, i < data₁.length - 6 → data₁.getD i 0 = data₂.getD i 0) :
    deflate_decompress data₁ cap = deflate_decompress data₂ cap := by
  simp only [deflate_decompress, ← read_zlib_header_congr data₁ data₂ hlen h01 hf, ← hlen]
  cases hhdr : deflate_read_zlib_header data₁ with
  | error e => rfl
  | ok p =>
    obtain ⟨off, size, pid⟩ := p
    simp only []
    cases deflate_fixed_huffman_tables with
    | error e => rfl
    | ok q =>
      obtain ⟨flit, fdist⟩ := q
      simp only []
      have hsizes := read_zlib_header_sizes data₁ off size pid hhdr
      have hsz : ∀ i, i < size → data₁.getD i 0 = data₂.getD i 0 := by
        by_cases hd : data₁.getD 1 0 &&& 0x20 ≠ 0
        · have := (hsizes.2 hd).2
          intro i hi
          exact hagreef hd i (by omega)
        · have := (hsizes.1 (by omega)).2
          intro i hi
          exact hagree (by omega) i (by omega)
      rw [block_loop_congr data₁ data₂ size hsz flit fdist cap]
      cases deflate_block_loop data₂ size flit fdist cap (8 * data₁.length + 64)
          ⟨off, 0, 0⟩ [] with
      | error e => rfl
      | ok r =>
        obtain ⟨s, out⟩ := r
        simp only []
        exact check_trailer_congr data₁ data₂ size hsz s out

/-- **C4.** The zlib header parsing of `deflate_decompress` subtracts the
consumed header length from `compressed_data_size` while also advancing the
read offset, so the bit stream handed to the block decoder and the trailer
check ends 2 bytes before the end of the input buffer (6 bytes when the
`fdict` bit is set): first conjunct, the accepted header yields
`offset = 2, size = length - 2` (resp. `6, length - 6`).  Those final bytes
are never readable: replacing the last 2 bytes of any input (the last 6 of an
`fdict` input) cannot change the result of `deflate_decompress` (third and
fourth conjuncts).  And Adler-32 verification is silently skipped whenever
fewer than 4 visible bytes remain after the last block: second conjunct, the
trailer check returns the output unconditionally in that case. -/
theorem claim_C4_reduced_stream_and_skipped_checksum :
    (∀ (data : List Nat) (off size pid : Nat),
      deflate_read_zlib_header data = .ok (off, size, pid) →
      (data.getD 1 0 &&& 0x20 = 0 → off = 2 ∧ size = data.length - 2)
      ∧ (data.getD 1 0 &&& 0x20 ≠ 0 → off = 6 ∧ size = data.length - 6))
    ∧ (∀ (data : List Nat) (size : Nat) (s : BitStream) (out : List Nat),
      size - s.byte_stream_offset < 4 → deflate_check_trailer data size s out = .ok out)
    ∧ (∀ (l : List Nat) (x y x' y' cap : Nat), 2 ≤ l.length →
      (l.getD 1 0 &&& 0x20 ≠ 0 → 6 ≤ l.length) →
      deflate_decompress (l ++ [x, y]) cap = deflate_decompress (l ++ [x', y']) cap)
    ∧ (∀ (l t t' : List Nat) (cap : Nat), 6 ≤ l.length → l.getD 1 0 &&& 0x20 ≠ 0 →
      t.length = 6 → t'.length = 6 →
      deflate_decompress (l ++ t) cap = deflate_decompress (l ++ t') cap) := by
  have hgetDapp : ∀ (l t : List Nat) (i : Nat), i < l.length →
      (l ++ t).getD i 0 = l.getD i 0 := by
    intro l t i hi
    rw [List.getD_eq_getElem?_getD, List.getD_eq_getElem?_getD, List.getElem?_append_left hi]
  refine ⟨read_zlib_header_sizes, ?_, ?_, ?_⟩
  · intro data size s out h4
    rw [deflate_check_trailer, if_neg (by omega)]
  · intro l x y x' y' cap hl2 hl6
    have hlen : (l ++ [x, y]).length = (l ++ [x', y']).length := by simp
    have h01 : ∀ i, i < 2 → (l ++ [x, y]).getD i 0 = (l ++ [x', y']).getD i 0 := by
      intro i hi
      rw [hgetDapp l _ i (by omega), hgetDapp l _ i (by omega)]
    have hfd : (l ++ [x, y]).getD 1 0 = l.getD 1 0 := hgetDapp l _ 1 (by omega)
    refine decompress_congr_aux _ _ cap hlen h01 ?_ ?_ ?_
    · intro hd i hi
      have h6 := hl6 (by rwa [hfd] at hd)
      rw [hgetDapp l _ i (by omega), hgetDapp l _ i (by omega)]
    · intro _ i hi
      have hi' : i < l.length := by simp at hi; omega
      rw [hgetDapp l _ i hi', hgetDapp l _ i hi']
    · intro hd i hi
      have h6 := hl6 (by rwa [hfd] at hd)
      have hi' : i < l.length := by simp at hi; omega
      rw [hgetDapp l _ i hi', hgetDapp l _ i hi']
  · intro l t t' cap hl6 hdict ht ht'
    have hlen : (l ++ t).length = (l ++ t').length := by simp [ht, ht']
    have hfd : (l ++ t).getD 1 0 = l.getD 1 0 := hgetDapp l _ 1 (by omega)
    have h01 : ∀ i, i < 2 → (l ++ t).getD i 0 = (l ++ t').getD i 0 := by
      intro i hi
      rw [hgetDapp l _ i (by omega), hgetDapp l _ i (by omega)]
    refine decompress_congr_aux _ _ cap hlen h01 ?_ ?_ ?_
    · intro _ i hi
      rw [hgetDapp l _ i (by omega), hgetDapp l _ i (by omega)]
    · intro hd0 _ _
      rw [hfd] at hd0
      exact absurd hd0 hdict
    · intro _ i hi
      have hi' : i < l.length := by simp [ht] at hi; omega
      rw [hgetDapp l _ i hi', hgetDapp l _ i hi']

/-- Witness for C4 at concrete inputs: the accepted header of the 8-byte
stream `78 9C 03 00 00 00 00 01` yields offset 2 and size 6; a trailer check
with one visible byte left is skipped; and replacing the final two bytes
(final six of an fdict input) leaves `deflate_decompress` unchanged. -/
theorem claim_C4_reduced_stream_and_skipped_checksum_witness :
    ((2 : Nat) = 2 ∧ (6 : Nat) = [0x78, 0x9C, 0x03, 0x00, 0x00, 0x00, 0x00, 0x01].length - 2)
    ∧ deflate_check_trailer [1, 2, 3] 5 ⟨4, 0, 0⟩ [7] = .ok [7]
    ∧ deflate_decompress ([0x78, 0x9C, 0x03, 0x00, 0x00, 0x00] ++ [0, 1]) 16 =
        deflate_decompress ([0x78, 0x9C, 0x03, 0x00, 0x00, 0x00] ++ [0, 0]) 16
    ∧ deflate_decompress ([0x78, 0x20, 0, 0, 0, 1] ++ [0x03, 0, 0, 0, 0, 0]) 16 =
        deflate_decompress ([0x78, 0x20, 0, 0, 0, 1] ++ [9, 9, 9, 9, 9, 9]) 16 :=
  ⟨(claim_C4_reduced_stream_and_skipped_checksum.1
      [0x78, 0x9C, 0x03, 0x00, 0x00, 0x00, 0x00, 0x01] 2 6 0 (by rfl)).1 (by decide),
   claim_C4_reduced_stream_and_skipped_checksum.2.1 [1, 2, 3] 5 ⟨4, 0, 0⟩ [7] (by decide),
   claim_C4_reduced_stream_and_skipped_checksum.2.2.1 [0x78, 0x9C, 0x03, 0x00, 0x00, 0x00]
     0 1 0 0 16 (by decide) (by decide),
   claim_C4_reduced_stream_and_skipped_checksum.2.2.2 [0x78, 0x20, 0, 0, 0, 1]
     [0x03, 0, 0, 0, 0, 0] [9, 9, 9, 9, 9, 9] 16 (by decide) (by decide) (by decide)
     (by decide)⟩
